import Mathlib

/-!
Verification development for the MathML-to-ASCII box-layout engine
(`tools/mathml_to_ascii.py`).  The Python data model and every layout rule
referenced by the specification are embedded shallowly: the mutable
character grid of a `MathBox` becomes a `List (List Char)` updated
functionally, Python `int` coordinates become `Int` at the bounds-checked
accessors and `Nat` in the loop counters, and each `process_*` method
becomes a Lean function faithful to the source, with the recursive tree
walk realised by structural recursion over the element tree.
-/

/-- Model of `MathBox`: a rendered math element with dimensions, baseline
and a 2-D grid of characters (`content`). -/
structure MathBox where
  width : Nat
  height : Nat
  baseline : Nat
  content : List (List Char)
deriving DecidableEq, Repr

/-- Model of `MathBox.__init__(text)`: a simple one-line text box.
In Python `content = [[c for c in text]] if text else [[]]`, which in both
cases is the singleton list holding the character list of `text`. -/
def MathBox.ofText (text : String) : MathBox :=
  { width := text.length
    height := 1
    baseline := 0
    content := [text.toList] }

/-- Model of `MathBox.get_char`: character at position, space if out of
bounds.  Coordinates are integers, as in Python. -/
def MathBox.get_char (b : MathBox) (x y : Int) : Char :=
  if 0 ≤ y ∧ y < (b.height : Int) ∧ 0 ≤ x ∧ x < (b.width : Int) then
    (b.content.getD y.toNat []).getD x.toNat ' '
  else ' '

/-- Model of `MathBox.set_char`: set character at position; no-op when the
position is out of bounds. -/
def MathBox.set_char (b : MathBox) (x y : Int) (char : Char) : MathBox :=
  if 0 ≤ y ∧ y < (b.height : Int) ∧ 0 ≤ x ∧ x < (b.width : Int) then
    { b with content :=
        b.content.set y.toNat ((b.content.getD y.toNat []).set x.toNat char) }
  else b

/-- Model of `MathBox.create_empty`: an all-space grid of the given
dimensions. -/
def MathBox.create_empty (width height baseline : Nat) : MathBox :=
  { width := width
    height := height
    baseline := baseline
    content := List.replicate height (List.replicate width ' ') }

/-- Model of `MathBox.render`: newline-joined rows. -/
def MathBox.render (b : MathBox) : String :=
  String.intercalate "\n" (b.content.map fun row => String.mk row)

/-- The well-formedness invariant claimed by the specification for every
produced box: positive height, baseline strictly inside the grid, and a
content grid of exactly `height` rows of exactly `width` columns. -/
def MathBox.Inv (b : MathBox) : Prop :=
  0 < b.height ∧ b.baseline < b.height ∧
    b.content.length = b.height ∧ ∀ r ∈ b.content, r.length = b.width

instance (b : MathBox) : Decidable b.Inv := by
  unfold MathBox.Inv; infer_instance

/-! ### Python string helpers used by the source -/

/-- Characters removed by Python `str.strip()` (ASCII whitespace). -/
def pyIsSpace (c : Char) : Bool :=
  c = ' ' ∨ c = '\t' ∨ c = '\n' ∨ c = '\r' ∨ c = '\x0b' ∨ c = '\x0c'

/-- Python `str.strip()` on a character list. -/
def pyStripList (l : List Char) : List Char :=
  ((l.dropWhile pyIsSpace).reverse.dropWhile pyIsSpace).reverse

/-- Python `str.strip()`. -/
def pyStrip (s : String) : String :=
  String.mk (pyStripList s.toList)

/-- Python `str.lstrip()` on a character list. -/
def pyLStrip (l : List Char) : List Char :=
  l.dropWhile pyIsSpace

/-- Python `needle in haystack` on character lists. -/
def containsSub (needle : List Char) : List Char → Bool
  | [] => needle.isEmpty
  | c :: t => needle.isPrefixOf (c :: t) || containsSub needle t

/-- Python `sub.lower()` containment test `'where' in text.lower()`. -/
def containsWhere (s : String) : Bool :=
  containsSub "where".toList (s.toList.map Char.toLower)

/-! ### The grid-copy loops

Every layout rule copies a child box into a freshly allocated result grid
with a double `for` loop over the child's cells, differing only in offsets
and in the guard under which a cell is written (some rules skip blank
cells, some add explicit target-bound checks).  `copy_cells` captures that
loop shape once; each rule instantiates `keep` with exactly the guard the
source uses at that call site. -/

/-- One iteration of the inner copy loop: write the source cell `(x, y)`
to `(x + dx, y + dy)` when the guard holds. -/
def copy_cell_step (src : MathBox) (dx dy : Nat) (keep : Char → Nat → Nat → Bool)
    (y : Nat) (acc2 : MathBox) (x : Nat) : MathBox :=
  if keep (src.get_char (↑x) (↑y)) x y then
    acc2.set_char (↑(x + dx)) (↑(y + dy)) (src.get_char (↑x) (↑y))
  else acc2

/-- The inner loop `for x in range(src.width)` of the copy. -/
def copy_row (src : MathBox) (dx dy : Nat) (keep : Char → Nat → Nat → Bool)
    (y : Nat) (acc : MathBox) : MathBox :=
  (List.range src.width).foldl (copy_cell_step src dx dy keep y) acc

/-- The double copy loop
`for y in range(src.height): for x in range(src.width): if keep: dst.set_char(x+dx, y+dy, src.get_char(x, y))`. -/
def copy_cells (src : MathBox) (dx dy : Nat) (keep : Char → Nat → Nat → Bool)
    (dst : MathBox) : MathBox :=
  (List.range src.height).foldl (fun acc (y : Nat) => copy_row src dx dy keep y acc) dst

/-! ### horizontal_concat -/

/-- The per-box copy inside `horizontal_concat`, with the source's guard
`char != ' ' and 0 <= y + y_offset < height and x + x_offset < width`
(the local `height`/`width` of the result are passed explicitly, as the
Python closure reads them). -/
def concat_copy (box : MathBox) (x_offset y_offset height width : Nat)
    (result : MathBox) : MathBox :=
  copy_cells box x_offset y_offset
    (fun c x y => c ≠ ' ' ∧ y + y_offset < height ∧ x + x_offset < width) result

/-- The placement loop of `horizontal_concat`: each box is copied at the
running `x_offset`, vertically shifted so its baseline meets the result
baseline. -/
def concat_place : List MathBox → Nat → Nat → Nat → Nat → MathBox → MathBox
  | [], _, _, _, _, result => result
  | box :: rest, x_offset, baseline, height, width, result =>
      concat_place rest (x_offset + box.width) baseline height width
        (concat_copy box x_offset (baseline - box.baseline) height width result)

/-- The filter at the head of `horizontal_concat`:
`boxes = [b for b in boxes if b.width > 0 and b.height > 0]`. -/
def kept_boxes (boxes : List MathBox) : List MathBox :=
  boxes.filter fun b => 0 < b.width ∧ 0 < b.height

/-- The general case of `horizontal_concat` (two or more surviving
boxes): total width, baseline-union height, then the placement loop over
a fresh grid. -/
def concat_build (kept : List MathBox) : MathBox :=
  let width := (kept.map (·.width)).sum
  let max_above := (kept.map (·.baseline)).foldl max 0
  let max_below := (kept.map fun b => b.height - b.baseline).foldl max 0
  let height := max_above + max_below
  let baseline := max_above
  let result := MathBox.create_empty width height baseline
  concat_place kept 0 baseline height width result

/-- Model of `MathMLParser.horizontal_concat`: filter out empty boxes,
return the single survivor (or a fresh empty text box), otherwise lay the
boxes side by side aligned at the common baseline. -/
def horizontal_concat (boxes : List MathBox) : MathBox :=
  match kept_boxes boxes with
  | [] => MathBox.ofText ""
  | [b] => b
  | kept => concat_build kept

/-! ### Glyph tables and transliteration -/

/-- The `unicode_subscripts` table of `MathMLParser.__init__`. -/
def unicode_subscripts : List (Char × Char) :=
  [('0', '₀'), ('1', '₁'), ('2', '₂'), ('3', '₃'), ('4', '₄'), ('5', '₅'),
   ('6', '₆'), ('7', '₇'), ('8', '₈'), ('9', '₉'),
   ('a', 'ₐ'), ('e', 'ₑ'), ('i', 'ᵢ'), ('o', 'ₒ'), ('u', 'ᵤ'), ('x', 'ₓ'),
   ('h', 'ₕ'), ('k', 'ₖ'), ('l', 'ₗ'), ('m', 'ₘ'),
   ('n', 'ₙ'), ('p', 'ₚ'), ('r', 'ᵣ'), ('s', 'ₛ'), ('t', 'ₜ'), ('v', 'ᵥ'),
   ('ə', 'ₔ'),
   ('+', '₊'), ('-', '₋'), ('=', '₌'), ('(', '₍'), (')', '₎'),
   (',', ','), (' ', ' ')]

/-- The `unicode_superscripts` table of `MathMLParser.__init__`. -/
def unicode_superscripts : List (Char × Char) :=
  [('0', '⁰'), ('1', '¹'), ('2', '²'), ('3', '³'), ('4', '⁴'), ('5', '⁵'),
   ('6', '⁶'), ('7', '⁷'), ('8', '⁸'), ('9', '⁹'),
   ('a', 'ᵃ'), ('b', 'ᵇ'), ('c', 'ᶜ'), ('d', 'ᵈ'), ('e', 'ᵉ'), ('f', 'ᶠ'),
   ('g', 'ᵍ'), ('h', 'ʰ'), ('i', 'ⁱ'), ('j', 'ʲ'),
   ('k', 'ᵏ'), ('l', 'ˡ'), ('m', 'ᵐ'), ('n', 'ⁿ'), ('o', 'ᵒ'), ('p', 'ᵖ'),
   ('r', 'ʳ'), ('s', 'ˢ'), ('t', 'ᵗ'), ('u', 'ᵘ'),
   ('v', 'ᵛ'), ('w', 'ʷ'), ('x', 'ˣ'), ('y', 'ʸ'), ('z', 'ᶻ'),
   ('A', 'ᴬ'), ('B', 'ᴮ'), ('D', 'ᴰ'), ('E', 'ᴱ'), ('G', 'ᴳ'), ('H', 'ᴴ'),
   ('I', 'ᴵ'), ('J', 'ᴶ'), ('K', 'ᴷ'),
   ('L', 'ᴸ'), ('M', 'ᴹ'), ('N', 'ᴺ'), ('O', 'ᴼ'), ('P', 'ᴾ'), ('R', 'ᴿ'),
   ('T', 'ᵀ'), ('U', 'ᵁ'), ('V', 'ⱽ'), ('W', 'ᵂ'),
   ('+', '⁺'), ('-', '⁻'), ('=', '⁼'), ('(', '⁽'), (')', '⁾')]

/-- Dictionary lookup `table[char]` guarded by `char in table`. -/
def glyph_lookup (table : List (Char × Char)) (c : Char) : Option Char :=
  (table.find? fun p => p.1 = c).map (·.2)

/-- Character-by-character transliteration; fails if any character is
missing from the table. -/
def translit (table : List (Char × Char)) : List Char → Option (List Char)
  | [] => some []
  | c :: cs =>
    match glyph_lookup table c, translit table cs with
    | some g, some gs => some (g :: gs)
    | _, _ => none

/-- Model of `MathMLParser.try_unicode_subscript`: `none` models Python
`None`; a failed transliteration falls back to the underscore form. -/
def try_unicode_subscript (use_unicode : Bool) (text : String) : Option String :=
  if ¬ use_unicode ∨ text.isEmpty then none
  else
    match translit unicode_subscripts text.toList with
    | some gs => some (String.mk gs)
    | none => some ("_" ++ text)

/-- Model of `MathMLParser.try_unicode_superscript`: single-character
`'`, `"`, `*` stay inline; otherwise transliterate or give up. -/
def try_unicode_superscript (use_unicode : Bool) (text : String) : Option String :=
  if ¬ use_unicode ∨ text.isEmpty then none
  else if text.length = 1 ∧ (text = "\'" ∨ text = "\"" ∨ text = "*") then
    some text
  else
    match translit unicode_superscripts text.toList with
    | some gs => some (String.mk gs)
    | none => none

/-- Python truthiness of an `Optional[str]`: not `None` and not empty. -/
def optStrTruthy (o : Option String) : Bool :=
  match o with
  | some s => ¬ s.isEmpty
  | none => false

/-! ### Per-construct layout rules (the part of each `process_*` method
after its children have been rendered) -/

/-- Model of `MathMLParser.process_fraction` after the two children are
rendered: invisible fractions stack without a rule, visible ones draw a
full-width rule row of the box-drawing dash at the baseline. -/
def fraction_layout (is_invisible : Bool) (numerator denominator : MathBox) : MathBox :=
  if is_invisible then
    let width := max numerator.width denominator.width
    let height := numerator.height + denominator.height
    let baseline := numerator.height - 1
    let result := MathBox.create_empty width height baseline
    let num_offset := (width - numerator.width) / 2
    let result := copy_cells numerator num_offset 0 (fun _ _ _ => true) result
    let den_offset := (width - denominator.width) / 2
    copy_cells denominator den_offset numerator.height (fun _ _ _ => true) result
  else
    let width := max numerator.width denominator.width
    let height := numerator.height + 1 + denominator.height
    let baseline := numerator.height
    let result := MathBox.create_empty width height baseline
    let num_offset := (width - numerator.width) / 2
    let result := copy_cells numerator num_offset 0 (fun _ _ _ => true) result
    let result := (List.range width).foldl
      (fun acc (x : Nat) => acc.set_char (↑x) (↑baseline) '─') result
    let den_offset := (width - denominator.width) / 2
    copy_cells denominator den_offset (baseline + 1) (fun _ _ _ => true) result

/-- The multiline branch of `process_subscript`. -/
def subscript_multiline (base subscript : MathBox) : MathBox :=
  let width := base.width + subscript.width
  let height := max base.height (base.baseline + 1 + subscript.height)
  let baseline := base.baseline
  let result := MathBox.create_empty width height baseline
  let result := copy_cells base 0 0 (fun _ _ _ => true) result
  let sub_y_offset := base.baseline + 1
  copy_cells subscript base.width sub_y_offset
    (fun _ _ y => sub_y_offset + y < height) result

/-- Model of `process_subscript` after the two children are rendered:
try the compact Unicode form, else fall back to multiline placement. -/
def subscript_layout (use_unicode : Bool) (base subscript : MathBox) : MathBox :=
  if base.height = 1 ∧ base.baseline = 0 ∧
      subscript.height = 1 ∧ subscript.baseline = 0 then
    let subscript_text := pyStrip (String.mk (subscript.content.getD 0 []))
    let unicode_sub := try_unicode_subscript use_unicode subscript_text
    if optStrTruthy unicode_sub then
      let base_text := pyStrip (String.mk (base.content.getD 0 []))
      MathBox.ofText (base_text ++ unicode_sub.getD "")
    else subscript_multiline base subscript
  else subscript_multiline base subscript

/-- The multiline branch of `process_superscript`. -/
def superscript_multiline (base superscript : MathBox) : MathBox :=
  let width := base.width + superscript.width
  let height := superscript.height + base.height
  let baseline := superscript.height + base.baseline
  let result := MathBox.create_empty width height baseline
  let result := copy_cells superscript base.width 0 (fun _ _ _ => true) result
  copy_cells base 0 superscript.height (fun _ _ _ => true) result

/-- Model of `process_superscript` after the two children are rendered. -/
def superscript_layout (use_unicode : Bool) (base superscript : MathBox) : MathBox :=
  if base.height = 1 ∧ base.baseline = 0 ∧
      superscript.height = 1 ∧ superscript.baseline = 0 then
    let superscript_text := pyStrip (String.mk (superscript.content.getD 0 []))
    let unicode_sup := try_unicode_superscript use_unicode superscript_text
    if optStrTruthy unicode_sup then
      let base_text := pyStrip (String.mk (base.content.getD 0 []))
      MathBox.ofText (base_text ++ unicode_sup.getD "")
    else superscript_multiline base superscript
  else superscript_multiline base superscript

/-- The diagonal (non-summation, non-compact) branch of `process_subsup`. -/
def subsup_diagonal (base subscript superscript : MathBox) : MathBox :=
  let width := base.width + max subscript.width superscript.width
  let height := superscript.height + base.height + subscript.height
  let baseline := superscript.height + base.baseline
  let result := MathBox.create_empty width height baseline
  let result := copy_cells base 0 superscript.height (fun _ _ _ => true) result
  let result := copy_cells superscript base.width 0 (fun _ _ _ => true) result
  let sub_y_offset := superscript.height + base.height
  copy_cells subscript base.width sub_y_offset
    (fun _ _ y => sub_y_offset + y < height) result

/-- Model of `process_subsup` after the three children are rendered: a
summation base stacks the three operands vertically and centred, otherwise
the compact transliterated form is attempted before diagonal placement. -/
def subsup_layout (use_unicode : Bool) (base subscript superscript : MathBox) : MathBox :=
  let base_text := pyStrip (String.mk base.content.flatten)
  let is_summation := '∑' ∈ base_text.toList
  if is_summation then
    let width := max base.width (max subscript.width superscript.width)
    let height := superscript.height + base.height + subscript.height
    let baseline := superscript.height + base.baseline
    let result := MathBox.create_empty width height baseline
    let super_offset := (width - superscript.width) / 2
    let result := copy_cells superscript super_offset 0 (fun _ _ _ => true) result
    let base_offset := (width - base.width) / 2
    let result := copy_cells base base_offset superscript.height (fun _ _ _ => true) result
    let sub_offset := (width - subscript.width) / 2
    copy_cells subscript sub_offset (superscript.height + base.height)
      (fun _ _ _ => true) result
  else
    if base.height = 1 ∧ subscript.height = 1 ∧ superscript.height = 1 then
      let base_text1 := pyStrip (String.mk (base.content.getD 0 []))
      let sub_text := pyStrip (String.mk (subscript.content.getD 0 []))
      let sup_text := pyStrip (String.mk (superscript.content.getD 0 []))
      let unicode_sub := try_unicode_subscript use_unicode sub_text
      let unicode_sup := try_unicode_superscript use_unicode sup_text
      if optStrTruthy unicode_sub ∧ optStrTruthy unicode_sup then
        MathBox.ofText (base_text1 ++ unicode_sub.getD "" ++ unicode_sup.getD "")
      else subsup_diagonal base subscript superscript
    else subsup_diagonal base subscript superscript

/-- Model of `process_under` after the two children are rendered;
`is_summation` is the caller's detection on the base element's own text. -/
def under_layout (base under : MathBox) (is_summation : Bool) : MathBox :=
  let width := max base.width under.width
  let width := if is_summation then max width 2 else width
  let height := base.height + under.height
  let baseline := base.baseline
  let result := MathBox.create_empty width height baseline
  let base_offset := (width - base.width) / 2
  let result := copy_cells base base_offset 0 (fun _ _ _ => true) result
  let under_offset := (width - under.width) / 2
  copy_cells under under_offset base.height (fun _ _ _ => true) result

/-- Model of `process_underover` after the three children are rendered. -/
def underover_layout (base under over : MathBox) (is_summation : Bool) : MathBox :=
  let width := max base.width (max under.width over.width)
  let width := if is_summation then max width 2 else width
  let height := over.height + base.height + under.height
  let baseline := over.height + base.baseline
  let result := MathBox.create_empty width height baseline
  let over_offset := (width - over.width) / 2
  let result := copy_cells over over_offset 0 (fun _ _ _ => true) result
  let base_offset := (width - base.width) / 2
  let result := copy_cells base base_offset over.height (fun _ _ _ => true) result
  let under_offset := (width - under.width) / 2
  copy_cells under under_offset (over.height + base.height) (fun _ _ _ => true) result

/-- Model of `MathMLParser.generate_sqrt_radical`. -/
def generate_sqrt_radical (height length : Nat) : List (List Char) :=
  let height := if height < 3 then 3 else height
  let top_padding := height + 1
  let overline := '⟋' :: List.replicate length '─'
  let top := List.replicate top_padding ' ' ++ overline
  let mids := (List.range' 1 (height - 3)).map fun i =>
    List.replicate (height + 1 - i) ' ' ++ "╱  ".toList
  let conn := if height > 2 then ["_  ╱  ".toList] else []
  top :: (mids ++ conn ++ [" \\╱  ".toList])

/-- The line-stamping loop shared by the radical renderers:
`for y, line in enumerate(lines): for x, char in enumerate(line): if x < total_width and char != ' ': set_char`. -/
def place_lines (lines : List (List Char)) (total_width : Nat) (result : MathBox) : MathBox :=
  lines.enum.foldl (fun acc (p : Nat × List Char) =>
    p.2.enum.foldl (fun acc2 (q : Nat × Char) =>
      if q.1 < total_width ∧ q.2 ≠ ' ' then acc2.set_char (↑q.1) (↑p.1) q.2
      else acc2) acc) result

/-- Model of `process_square_root` after the radicand is rendered
(single-line shortcut plus the ASCII-art path). -/
def square_root_layout (inner : MathBox) : MathBox :=
  if inner.height = 1 then
    MathBox.ofText ("√(" ++ pyStrip (String.mk (inner.content.getD 0 [])) ++ ")")
  else
    let formula_width := inner.width
    let formula_height := inner.height
    let radical_lines := generate_sqrt_radical (formula_height + 1) (formula_width + 4)
    let radical_width := (radical_lines.headD []).length
    let total_width := max radical_width (formula_width + 10)
    let total_height := radical_lines.length
    let baseline := inner.baseline + 1
    let result := MathBox.create_empty total_width total_height baseline
    let result := place_lines radical_lines total_width result
    let content_x_offset := formula_height + 3
    let content_y_offset := 1
    copy_cells inner content_x_offset content_y_offset
      (fun c x y => c ≠ ' ' ∧ content_x_offset + x < total_width ∧
        content_y_offset + y < total_height) result

/-- Model of `process_nth_root` after the two children are rendered. -/
def nth_root_layout (use_unicode : Bool) (radicand index : MathBox) : MathBox :=
  if radicand.height = 1 ∧ index.height = 1 then
    let radicand_text := pyStrip (String.mk (radicand.content.getD 0 []))
    let index_text := pyStrip (String.mk (index.content.getD 0 []))
    let unicode_index := try_unicode_superscript use_unicode index_text
    if optStrTruthy unicode_index then
      MathBox.ofText (unicode_index.getD "" ++ "√(" ++ radicand_text ++ ")")
    else
      MathBox.ofText ("[" ++ index_text ++ "]√(" ++ radicand_text ++ ")")
  else
    let formula_width := radicand.width
    let formula_height := radicand.height
    let index_text := pyStrip (String.mk index.content.flatten)
    let index_width := index_text.length
    let lines : List (List Char) :=
      if formula_height = 3 then
        [List.replicate 5 ' ' ++ '⟋' :: List.replicate (formula_width + 4) '─',
         List.replicate 4 ' ' ++ "╱  ".toList,
         "_  ╱  ".toList,
         " \\╱  ".toList]
      else
        let radical_line_height := formula_height + 2
        let top_padding := radical_line_height - 1
        let overline := '⟋' :: List.replicate (formula_width + 4) '─'
        let top := List.replicate top_padding ' ' ++ overline
        let rest := (List.range' 1 (radical_line_height - 1)).map fun i =>
          let padding := radical_line_height - 1 - i
          if i = radical_line_height - 1 then
            List.replicate padding ' ' ++ "\\╱  ".toList
          else if i = radical_line_height - 2 then
            '_' :: (List.replicate padding ' ' ++ "╱  ".toList)
          else
            List.replicate (padding + 1) ' ' ++ "╱  ".toList
        top :: rest
    let modified_lines := lines.map fun line =>
      if "_".toList.isPrefixOf (pyLStrip line) then
        ' ' :: (index_text.toList ++ line)
      else
        List.replicate (index_width + 1) ' ' ++ line
    let radical_width := (modified_lines.map (·.length)).foldl max 0
    let total_width := max radical_width (formula_width + 10 + index_width)
    let total_height := max modified_lines.length (1 + radicand.height)
    let baseline := radicand.baseline + 1
    let result := MathBox.create_empty total_width total_height baseline
    let result := place_lines modified_lines total_width result
    let content_x_offset :=
      if formula_height = 3 then 7 + index_width
      else formula_height + 3 + index_width + 1
    let content_y_offset := 1
    copy_cells radicand content_x_offset content_y_offset
      (fun c x y => c ≠ ' ' ∧ content_x_offset + x < total_width ∧
        content_y_offset + y < total_height) result

/-- The row-placement loop of `process_table`: rows are centred in the
table width and stacked, with one blank row inserted before row index 1
when the where-clause heuristic fired. -/
def table_place_rows : List MathBox → Nat → Nat → Nat → Bool → MathBox → MathBox
  | [], _, _, _, _, result => result
  | row :: rest, i, y_offset, max_width, has_where_clause, result =>
      let y_offset := if has_where_clause ∧ i = 1 then y_offset + 1 else y_offset
      let x_offset := (max_width - row.width) / 2
      let result := copy_cells row x_offset y_offset (fun c _ _ => c ≠ ' ') result
      table_place_rows rest (i + 1) (y_offset + row.height) max_width has_where_clause result

/-- Model of `process_table` after the rows are rendered and the
where-clause heuristic evaluated; the baseline is overwritten to the
middle of the table at the end. -/
def table_layout (rows : List MathBox) (has_where_clause : Bool) : MathBox :=
  let max_width := (rows.map (·.width)).foldl max 0
  let total_height := (rows.map (·.height)).sum +
    (if has_where_clause ∧ 2 ≤ rows.length then 1 else 0)
  let result := MathBox.create_empty max_width total_height 0
  let result := table_place_rows rows 0 0 max_width has_where_clause result
  { result with baseline := total_height / 2 }

/-- The cell-spacing interleaving of `process_table_row`: a two-space box
between adjacent cells. -/
def table_row_spacing : List MathBox → List MathBox
  | [] => []
  | [c] => [c]
  | c :: rest => c :: MathBox.ofText "  " :: table_row_spacing rest

/-- Model of `create_multi_line_brace`. -/
def create_multi_line_brace (content : MathBox) : MathBox :=
  let height := content.height
  let width := content.width + 2
  let result := MathBox.create_empty width height content.baseline
  let result :=
    if height = 1 then result.set_char 0 0 '\x7b'
    else if height = 2 then (result.set_char 0 0 '⎧').set_char 0 1 '⎩'
    else if height = 3 then
      ((result.set_char 0 0 '⎧').set_char 0 1 '⎨').set_char 0 2 '⎩'
    else
      let r := result.set_char 0 0 '⎧'
      let r := (List.range' 1 (height - 2)).foldl (fun acc (i : Nat) =>
        if i = height / 2 then acc.set_char 0 (↑i) '⎨'
        else acc.set_char 0 (↑i) '⎪') r
      r.set_char 0 (↑(height - 1)) '⎩'
  copy_cells content 1 0 (fun c _ _ => c ≠ ' ') result

/-- Model of `create_multi_line_delimiters`. -/
def create_multi_line_delimiters (content : MathBox)
    (open_delim close_delim : String) : MathBox :=
  let height := content.height
  let width := content.width + 2
  let result := MathBox.create_empty width height content.baseline
  let result :=
    if open_delim = "(" then
      if height = 2 then (result.set_char 0 0 '⎛').set_char 0 1 '⎝'
      else
        let r := result.set_char 0 0 '⎛'
        let r := (List.range' 1 (height - 2)).foldl
          (fun acc (i : Nat) => acc.set_char 0 (↑i) '⎜') r
        r.set_char 0 (↑(height - 1)) '⎝'
    else if open_delim = "[" then
      if height = 2 then (result.set_char 0 0 '⎡').set_char 0 1 '⎣'
      else
        let r := result.set_char 0 0 '⎡'
        let r := (List.range' 1 (height - 2)).foldl
          (fun acc (i : Nat) => acc.set_char 0 (↑i) '⎢') r
        r.set_char 0 (↑(height - 1)) '⎣'
    else result
  let result := copy_cells content 1 0 (fun c _ _ => c ≠ ' ') result
  if close_delim = ")" then
    if height = 2 then
      (result.set_char (↑(width - 1)) 0 '⎞').set_char (↑(width - 1)) 1 '⎠'
    else
      let r := result.set_char (↑(width - 1)) 0 '⎞'
      let r := (List.range' 1 (height - 2)).foldl
        (fun acc (i : Nat) => acc.set_char (↑(width - 1)) (↑i) '⎟') r
      r.set_char (↑(width - 1)) (↑(height - 1)) '⎠'
  else if close_delim = "]" then
    if height = 2 then
      (result.set_char (↑(width - 1)) 0 '⎤').set_char (↑(width - 1)) 1 '⎦'
    else
      let r := result.set_char (↑(width - 1)) 0 '⎤'
      let r := (List.range' 1 (height - 2)).foldl
        (fun acc (i : Nat) => acc.set_char (↑(width - 1)) (↑i) '⎥') r
      r.set_char (↑(width - 1)) (↑(height - 1)) '⎦'
  else result

/-- Final assembly of `process_fenced` from the concatenated content box
and the delimiter attributes. -/
def fenced_finish (content_box : MathBox) (open_delim close_delim : String) : MathBox :=
  if open_delim = "\x7b" ∧ 1 < content_box.height then
    create_multi_line_brace content_box
  else if content_box.height = 1 then
    MathBox.ofText (open_delim ++ String.mk (content_box.content.getD 0 []) ++ close_delim)
  else create_multi_line_delimiters content_box open_delim close_delim

/-! ### The element tree

Model of the already-parsed XML element (`xml.etree` `Element`): a tag, an
attribute list, optional inline text, optional trailing text (`tail`) and
a list of child elements. -/

/-- A parsed markup element. -/
inductive Elem where
  | mk (tag : String) (attrs : List (String × String)) (text : Option String)
       (tail : Option String) (children : List Elem)

/-- The raw tag of an element. -/
def Elem.tagOf : Elem → String
  | .mk t _ _ _ _ => t

/-- The attribute list of an element. -/
def Elem.attrsOf : Elem → List (String × String)
  | .mk _ a _ _ _ => a

/-- The inline text of an element. -/
def Elem.textOf : Elem → Option String
  | .mk _ _ t _ _ => t

/-- The trailing text of an element. -/
def Elem.tailOf : Elem → Option String
  | .mk _ _ _ t _ => t

/-- The child list of an element. -/
def Elem.childrenOf : Elem → List Elem
  | .mk _ _ _ _ c => c

/-- Python `elem.tag.split('}')[-1] if '}' in elem.tag else elem.tag`:
drop a namespace pointer, keeping the part after the last closing brace. -/
def split_tag (t : String) : String :=
  if '\x7d' ∈ t.toList then
    String.mk ((t.toList.reverse.takeWhile fun c => c ≠ '\x7d').reverse)
  else t

/-- Python `elem.get(key, default)` over the attribute list. -/
def attr_get (attrs : List (String × String)) (key default : String) : String :=
  (((attrs.find? fun p => p.1 = key).map (·.2))).getD default

/-- The summation detection used by `process_under`/`process_underover`:
`len(elem.text or '') > 0 and '∑' in elem.text` on the base element. -/
def elem_text_has_sum (e : Elem) : Bool :=
  let t := e.textOf.getD ""
  ¬ t.isEmpty ∧ '∑' ∈ t.toList

/-- The where-clause scan of `process_table`: some `mtr` child has an
`mtd` child one of whose child elements carries text containing the word
"where" (case-insensitively). -/
def has_where_scan (children : List Elem) : Bool :=
  children.any fun child =>
    split_tag child.tagOf = "mtr" ∧
    child.childrenOf.any fun td =>
      split_tag td.tagOf = "mtd" ∧
      td.childrenOf.any fun ec =>
        match ec.textOf with
        | some t => ¬ t.isEmpty ∧ containsWhere t
        | none => false

/-- Boxes contributed by a piece of leading/trailing raw text in an
`mrow`: `if txt and txt.strip(): boxes.append(MathBox(txt.strip()))`. -/
def strip_text_boxes (t : Option String) : List MathBox :=
  match t with
  | some s => if ¬ s.isEmpty ∧ ¬ (pyStrip s).isEmpty then [MathBox.ofText (pyStrip s)] else []
  | none => []

/-- Construct tags that get a 2-space separator after a fraction in
`process_mrow`. -/
def after_frac_tags : List String := ["msubsup", "munderover", "munder", "mover"]

/-- Shared finish of the rules that concatenate a list of gathered boxes:
`if not boxes: return MathBox()` else concatenate. -/
def concat_or_empty (boxes : List MathBox) : MathBox :=
  if boxes.isEmpty then MathBox.ofText "" else horizontal_concat boxes

/-- The `mo` rule of `process_element`: prefix operators and brackets
unpadded, binary operators padded with one space on each side. -/
def process_mo (attrs : List (String × String)) (text : Option String) : MathBox :=
  let t := text.getD ""
  let form := attr_get attrs "form" ""
  if form = "prefix" ∨ t ∈ ["log", "ln", "sin", "cos", "tan", "exp"] then
    MathBox.ofText t
  else if t ∈ ["=", "+", "-", "*", "/", "≠"] then
    MathBox.ofText (" " ++ t ++ " ")
  else if t ∈ ["(", ")", "[", "]", "\x7b", "\x7d"] then
    MathBox.ofText t
  else MathBox.ofText t

/-- End of `process_table`: empty box for a rowless table, else the
stacked layout with the where-clause heuristic (only consulted for at
least two rows). -/
def table_finish (rows : List MathBox) (scan : Bool) : MathBox :=
  if rows.isEmpty then MathBox.ofText ""
  else table_layout rows (decide (2 ≤ rows.length) && scan)

/-- End of `process_table_row`: empty box for a cell-less row, else the
cells joined with 2-space gaps. -/
def table_row_finish (cells : List MathBox) : MathBox :=
  if cells.isEmpty then MathBox.ofText ""
  else horizontal_concat (table_row_spacing cells)

/-- End of `process_table_cell`: concatenated non-empty child boxes, else
the raw cell text. -/
def table_cell_finish (boxes : List MathBox) (text : Option String) : MathBox :=
  if boxes.isEmpty then MathBox.ofText (text.getD "")
  else horizontal_concat boxes

mutual

/-- Model of `MathMLParser.process_element`: dispatch on the (namespace
stripped) tag to the matching layout rule, recursively rendering child
elements.  `u` is the parser's `use_unicode` flag. -/
def process_element (u : Bool) : Elem → MathBox
  | .mk rawtag attrs text _ children =>
    let tag := split_tag rawtag
    if tag = "math" then process_math u text children
    else if tag = "mrow" then
      concat_or_empty (strip_text_boxes text ++ mrow_boxes u none children)
    else if tag = "mi" then MathBox.ofText (text.getD "")
    else if tag = "mo" then process_mo attrs text
    else if tag = "mn" then MathBox.ofText (text.getD "")
    else if tag = "mtext" then MathBox.ofText (text.getD "")
    else if tag = "mspace" then MathBox.ofText " "
    else if tag = "mfrac" then process_mfrac u attrs children
    else if tag = "msub" then process_msub u children
    else if tag = "msup" then process_msup u children
    else if tag = "msubsup" then process_msubsup u children
    else if tag = "munder" then process_munder u children
    else if tag = "munderover" then process_munderover u children
    else if tag = "msqrt" then process_msqrt u children
    else if tag = "mroot" then process_mroot u children
    else if tag = "mtable" then
      table_finish (table_rows u children) (has_where_scan children)
    else if tag = "mtr" then table_row_finish (table_cells u children)
    else if tag = "mtd" then table_cell_finish (nonempty_boxes u children) text
    else if tag = "mfenced" then
      fenced_finish
        (concat_or_empty (fenced_boxes u (attr_get attrs "separators" ",") children))
        (attr_get attrs "open" "(") (attr_get attrs "close" ")")
    else process_default u text children
termination_by structural e => e

/-- The `math` root rule: process the first child, or the inline text. -/
def process_math (u : Bool) (text : Option String) : List Elem → MathBox
  | c :: _ => process_element u c
  | [] => MathBox.ofText (text.getD "")
termination_by structural l => l

/-- Model of `process_fraction`: arity check, invisibility attribute,
then the fraction layout on the rendered children. -/
def process_mfrac (u : Bool) (attrs : List (String × String)) :
    List Elem → MathBox
  | [n, d] =>
    fraction_layout (attr_get attrs "linethickness" "" = "0pt")
      (process_element u n) (process_element u d)
  | [] => MathBox.ofText "?"
  | [_] => MathBox.ofText "?"
  | _ :: _ :: _ :: _ => MathBox.ofText "?"
termination_by structural l => l

/-- Model of `process_subscript`: arity check then subscript layout. -/
def process_msub (u : Bool) : List Elem → MathBox
  | [b, s] => subscript_layout u (process_element u b) (process_element u s)
  | [] => MathBox.ofText "?"
  | [_] => MathBox.ofText "?"
  | _ :: _ :: _ :: _ => MathBox.ofText "?"
termination_by structural l => l

/-- Model of `process_superscript`: arity check then superscript layout. -/
def process_msup (u : Bool) : List Elem → MathBox
  | [b, s] => superscript_layout u (process_element u b) (process_element u s)
  | [] => MathBox.ofText "?"
  | [_] => MathBox.ofText "?"
  | _ :: _ :: _ :: _ => MathBox.ofText "?"
termination_by structural l => l

/-- Model of `process_subsup`: arity check then combined layout. -/
def process_msubsup (u : Bool) : List Elem → MathBox
  | [b, s, p] =>
    subsup_layout u (process_element u b) (process_element u s) (process_element u p)
  | [] => MathBox.ofText "?"
  | [_] => MathBox.ofText "?"
  | [_, _] => MathBox.ofText "?"
  | _ :: _ :: _ :: _ :: _ => MathBox.ofText "?"
termination_by structural l => l

/-- Model of `process_under`: arity check, summation detection on the
base element text, then the under layout. -/
def process_munder (u : Bool) : List Elem → MathBox
  | [b, un] =>
    under_layout (process_element u b) (process_element u un) (elem_text_has_sum b)
  | [] => MathBox.ofText "?"
  | [_] => MathBox.ofText "?"
  | _ :: _ :: _ :: _ => MathBox.ofText "?"
termination_by structural l => l

/-- Model of `process_underover`. -/
def process_munderover (u : Bool) : List Elem → MathBox
  | [b, un, ov] =>
    underover_layout (process_element u b) (process_element u un)
      (process_element u ov) (elem_text_has_sum b)
  | [] => MathBox.ofText "?"
  | [_] => MathBox.ofText "?"
  | [_, _] => MathBox.ofText "?"
  | _ :: _ :: _ :: _ :: _ => MathBox.ofText "?"
termination_by structural l => l

/-- Model of `process_square_root`: bare radical sign for no children,
one child or a concatenated group as the radicand. -/
def process_msqrt (u : Bool) : List Elem → MathBox
  | [] => MathBox.ofText "√"
  | [c] => square_root_layout (process_element u c)
  | c1 :: c2 :: cs =>
    square_root_layout (horizontal_concat
      (process_element u c1 :: process_element u c2 :: process_boxes u cs))
termination_by structural l => l

/-- Model of `process_nth_root`: arity check then nth-root layout. -/
def process_mroot (u : Bool) : List Elem → MathBox
  | [r, i] => nth_root_layout u (process_element u r) (process_element u i)
  | [] => MathBox.ofText "?"
  | [_] => MathBox.ofText "?"
  | _ :: _ :: _ :: _ => MathBox.ofText "?"
termination_by structural l => l

/-- The unknown-tag fallback: concatenate the children, else raw text. -/
def process_default (u : Bool) (text : Option String) : List Elem → MathBox
  | [] => MathBox.ofText (text.getD "")
  | c :: cs => horizontal_concat (process_element u c :: process_boxes u cs)
termination_by structural l => l

/-- The child loop of the default branch of `process_element`. -/
def process_boxes (u : Bool) : List Elem → List MathBox
  | [] => []
  | c :: cs => process_element u c :: process_boxes u cs
termination_by structural l => l

/-- The child loop of `process_mrow`: optional fraction/accent spacing,
the child box when non-empty, then stripped trailing text. -/
def mrow_boxes (u : Bool) (prev_child_tag : Option String) : List Elem → List MathBox
  | [] => []
  | child :: rest =>
    let child_tag := split_tag child.tagOf
    let spacing :=
      if prev_child_tag = some "mfrac" ∧ child_tag ∈ after_frac_tags then
        [MathBox.ofText "  "]
      else []
    let child_box := process_element u child
    let own := if 0 < child_box.width then [child_box] else []
    spacing ++ own ++ strip_text_boxes child.tailOf ++
      mrow_boxes u (some child_tag) rest
termination_by structural l => l

/-- The child loop of `process_fenced`: non-empty child boxes with the
separator box inserted after each non-final non-empty child. -/
def fenced_boxes (u : Bool) (separators : String) : List Elem → List MathBox
  | [] => []
  | child :: rest =>
    let b := process_element u child
    (if 0 < b.width then
      b :: (if rest.isEmpty = false ∧ ¬ separators.isEmpty then
              [MathBox.ofText separators]
            else [])
     else []) ++ fenced_boxes u separators rest
termination_by structural l => l

/-- The row loop of `process_table`: render each `mtr` child. -/
def table_rows (u : Bool) : List Elem → List MathBox
  | [] => []
  | child :: rest =>
    if split_tag child.tagOf = "mtr" then
      process_element u child :: table_rows u rest
    else table_rows u rest
termination_by structural l => l

/-- The cell loop of `process_table_row`: render each `mtd` child. -/
def table_cells (u : Bool) : List Elem → List MathBox
  | [] => []
  | child :: rest =>
    if split_tag child.tagOf = "mtd" then
      process_element u child :: table_cells u rest
    else table_cells u rest
termination_by structural l => l

/-- The child loop of `process_table_cell`: boxes of positive width. -/
def nonempty_boxes (u : Bool) : List Elem → List MathBox
  | [] => []
  | child :: rest =>
    let b := process_element u child
    (if 0 < b.width then [b] else []) ++ nonempty_boxes u rest
termination_by structural l => l

end

/-! ### The top-level entry point `mathml_to_ascii`

The source scans the HTML with the regular expression
`<math[^>]*>.*?</math>` (DOTALL) and processes only the first match.  For
this concrete pattern the regex engine's behaviour is deterministic: at
the leftmost start where `<math` occurs, `[^>]*` must stop exactly before
the first following `>` (it cannot consume one, and any shorter stop puts
a non-`>` character where `>` is required), and the lazy `.*?` stops at
the earliest later occurrence of `</math>`.  XML parsing
(`ET.fromstring`) is an external collaborator and is passed in as a
function returning `none` on a parse error. -/

/-- Index of the first closing angle bracket, as matched by `[^>]*>`. -/
def find_gt : List Char → Option Nat
  | [] => none
  | c :: t => if c = '>' then some 0 else (find_gt t).map (· + 1)

/-- Index of the earliest occurrence of `</math>`, as matched by the lazy
`.*?</math>`. -/
def find_close : List Char → Option Nat
  | [] => none
  | c :: t =>
    if "</math>".toList.isPrefixOf (c :: t) then some 0
    else (find_close t).map (· + 1)

/-- The match of `<math[^>]*>.*?</math>` anchored at the start of `l`,
if any. -/
def match_math_at (l : List Char) : Option (List Char) :=
  if "<math".toList.isPrefixOf l then
    match find_gt (l.drop 5) with
    | some k =>
      match find_close ((l.drop 5).drop (k + 1)) with
      | some m => some (l.take (5 + (k + 1) + m + 7))
      | none => none
    | none => none
  else none

/-- The first (leftmost) match of the math pattern in the string:
`re.findall(math_pattern, html, re.DOTALL)[0]` when it exists. -/
def first_math_match : List Char → Option (List Char)
  | [] => none
  | c :: t =>
    match match_math_at (c :: t) with
    | some m => some m
    | none => first_math_match t

/-- Membership in the language of `<math[^>]*>.*?</math>` (with DOTALL):
the word `<math`, then a run without a closing angle bracket, a closing
angle bracket, anything, and the word `</math>`. -/
def IsMathMatch (s : List Char) : Prop :=
  ∃ a b, s = "<math".toList ++ a ++ '>' :: (b ++ "</math>".toList) ∧ '>' ∉ a

/-- Model of `MathMLParser.parse`: strip, attempt the external XML parse,
and on failure retry once after wrapping a fragment in a `math` root
element; `none` models the propagated parse error. -/
def parse (fromstring : String → Option Elem) (u : Bool) (mathml : String) :
    Option MathBox :=
  let mathml := pyStrip mathml
  match fromstring mathml with
  | some root => some (process_element u root)
  | none =>
    if ¬ mathml.startsWith "<math" then
      match fromstring ("<math xmlns=\"http://www.w3.org/1998/Math/MathML\">"
          ++ mathml ++ "</math>") with
      | some root => some (process_element u root)
      | none => none
    else none

/-- Model of the top-level `mathml_to_ascii(html, use_unicode)`: return
the input unchanged when the pattern does not occur, otherwise parse and
render only the first match. -/
def mathml_to_ascii (fromstring : String → Option Elem) (html : String)
    (use_unicode : Bool) : Option String :=
  match first_math_match html.toList with
  | none => some html
  | some m => (parse fromstring use_unicode (String.mk m)).map MathBox.render

/-- The grid-shape half of the invariant: the content list has exactly
`height` rows of exactly `width` columns. -/
def MathBox.Shape (b : MathBox) : Prop :=
  b.content.length = b.height ∧ ∀ r ∈ b.content, r.length = b.width

instance (b : MathBox) : Decidable b.Shape := by
  unfold MathBox.Shape; infer_instance

mutual

/-- Size of an element tree, for strong induction. -/
def Elem.size : Elem → Nat
  | .mk _ _ _ _ cs => 1 + Elem.sizeList cs

/-- Total size of a list of element trees. -/
def Elem.sizeList : List Elem → Nat
  | [] => 0
  | e :: es => Elem.size e + Elem.sizeList es

end

/-! ## Basic lemmas about the box primitives -/

theorem MathBox.inv_shape {b : MathBox} (h : b.Inv) : b.Shape :=
  ⟨h.2.2.1, h.2.2.2⟩

theorem MathBox.ofText_inv (s : String) : (MathBox.ofText s).Inv := by
  refine ⟨Nat.one_pos, Nat.one_pos, rfl, ?_⟩
  intro r hr
  simp only [MathBox.ofText, List.mem_singleton] at hr
  simp [hr, MathBox.ofText]

theorem MathBox.set_char_width (b : MathBox) (x y : Int) (c : Char) :
    (b.set_char x y c).width = b.width := by
  unfold MathBox.set_char; split <;> rfl

theorem MathBox.set_char_height (b : MathBox) (x y : Int) (c : Char) :
    (b.set_char x y c).height = b.height := by
  unfold MathBox.set_char; split <;> rfl

theorem MathBox.set_char_baseline (b : MathBox) (x y : Int) (c : Char) :
    (b.set_char x y c).baseline = b.baseline := by
  unfold MathBox.set_char; split <;> rfl

theorem MathBox.set_char_shape {b : MathBox} (x y : Int) (c : Char)
    (h : b.Shape) : (b.set_char x y c).Shape := by
  obtain ⟨h1, h2⟩ := h
  unfold MathBox.set_char
  split
  · rename_i hb
    refine ⟨by simpa using h1, ?_⟩
    intro r hr
    simp only at hr
    rcases List.mem_or_eq_of_mem_set hr with hr' | rfl
    · exact h2 r hr'
    · rw [List.length_set]
      have hy : y.toNat < b.content.length := by omega
      rw [List.getD_eq_getElem _ _ hy]
      exact h2 _ (List.getElem_mem hy)
  · exact ⟨h1, h2⟩

theorem MathBox.create_empty_inv (w h bl : Nat) (hh : 0 < h) (hbl : bl < h) :
    (MathBox.create_empty w h bl).Inv := by
  refine ⟨hh, hbl, by simp [MathBox.create_empty], ?_⟩
  intro r hr
  rw [List.eq_of_mem_replicate hr]
  simp [MathBox.create_empty]

theorem MathBox.create_empty_shape (w h bl : Nat) :
    (MathBox.create_empty w h bl).Shape := by
  refine ⟨by simp [MathBox.create_empty], ?_⟩
  intro r hr
  rw [List.eq_of_mem_replicate hr]
  simp [MathBox.create_empty]

/-- Out-of-bounds reads give a space. -/
theorem MathBox.get_char_oob {b : MathBox} {x y : Int}
    (h : ¬ (0 ≤ y ∧ y < (b.height : Int) ∧ 0 ≤ x ∧ x < (b.width : Int))) :
    b.get_char x y = ' ' := by
  unfold MathBox.get_char
  split
  · rename_i hb; exact absurd hb h
  · rfl

/-- An out-of-bounds write is a no-op (the box is returned unchanged). -/
theorem MathBox.set_char_eq_of_oob {b : MathBox} {x y : Int} (c : Char)
    (h : ¬ (0 ≤ y ∧ y < (b.height : Int) ∧ 0 ≤ x ∧ x < (b.width : Int))) :
    b.set_char x y c = b := by
  unfold MathBox.set_char; rw [if_neg h]

theorem MathBox.set_char_eq_of_inb {b : MathBox} {x y : Int} (c : Char)
    (h : 0 ≤ y ∧ y < (b.height : Int) ∧ 0 ≤ x ∧ x < (b.width : Int)) :
    b.set_char x y c =
      { b with content :=
          b.content.set y.toNat ((b.content.getD y.toNat []).set x.toNat c) } := by
  unfold MathBox.set_char; rw [if_pos h]

/-- A cell of a freshly allocated box is a space (in or out of bounds). -/
theorem MathBox.create_empty_get (w h bl : Nat) (x y : Int) :
    (MathBox.create_empty w h bl).get_char x y = ' ' := by
  have hh : (MathBox.create_empty w h bl).height = h := rfl
  have hw : (MathBox.create_empty w h bl).width = w := rfl
  have hc : (MathBox.create_empty w h bl).content
      = List.replicate h (List.replicate w ' ') := rfl
  unfold MathBox.get_char
  rw [hh, hw, hc]
  split
  · rcases Nat.lt_or_ge y.toNat (List.replicate h (List.replicate w ' ')).length
        with hy | hy
    · rw [List.getD_eq_getElem _ _ hy, List.getElem_replicate]
      rcases Nat.lt_or_ge x.toNat (List.replicate w ' ').length with hx | hx
      · rw [List.getD_eq_getElem _ _ hx, List.getElem_replicate]
      · rw [List.getD_eq_default _ _ hx]
    · rw [List.getD_eq_default _ _ hy]
      simp
  · rfl

/-- Reading back after a write: the written cell if the write landed in
bounds at the queried position, the old cell otherwise. -/
theorem MathBox.get_set_char {b : MathBox} (hS : b.Shape) (x y x' y' : Int)
    (c : Char) :
    (b.set_char x y c).get_char x' y' =
      if x' = x ∧ y' = y ∧ 0 ≤ y ∧ y < (b.height : Int) ∧ 0 ≤ x ∧ x < (b.width : Int)
      then c else b.get_char x' y' := by
  obtain ⟨h1, h2⟩ := hS
  by_cases hb : 0 ≤ y ∧ y < (b.height : Int) ∧ 0 ≤ x ∧ x < (b.width : Int)
  · rw [MathBox.set_char_eq_of_inb c hb]
    have hyN : y.toNat < b.content.length := by omega
    have hrowlen : (b.content.getD y.toNat []).length = b.width := by
      rw [List.getD_eq_getElem _ _ hyN]
      exact h2 _ (List.getElem_mem hyN)
    by_cases hq : 0 ≤ y' ∧ y' < (b.height : Int) ∧ 0 ≤ x' ∧ x' < (b.width : Int)
    · by_cases hyy : y' = y
      · have hynat : y'.toNat = y.toNat := by omega
        by_cases hxx : x' = x
        · have hxnat : x'.toNat = x.toNat := by omega
          rw [if_pos ⟨hxx, hyy, hb⟩]
          simp only [MathBox.get_char]
          rw [if_pos hq]
          simp only [List.getD, List.get?_eq_getElem?, hynat, hxnat]
          rw [List.getElem?_set_self (by simpa using hyN)]
          simp only [Option.getD_some]
          have hxlt : x.toNat < (b.content[y.toNat]?.getD []).length := by
            have hrl := hrowlen
            simp only [List.getD, List.get?_eq_getElem?] at hrl
            omega
          rw [List.getElem?_set_self hxlt]
          rfl
        · rw [if_neg (fun hcon => hxx hcon.1)]
          have hxnat : x'.toNat ≠ x.toNat := by omega
          simp only [MathBox.get_char]
          rw [if_pos hq, if_pos hq]
          simp only [List.getD, List.get?_eq_getElem?, hynat]
          rw [List.getElem?_set_self (by simpa using hyN)]
          simp only [Option.getD_some]
          rw [List.getElem?_set_ne (Ne.symm hxnat)]
      · rw [if_neg (fun hcon => hyy hcon.2.1)]
        have hynat : y'.toNat ≠ y.toNat := by omega
        simp only [MathBox.get_char]
        rw [if_pos hq, if_pos hq]
        simp only [List.getD, List.get?_eq_getElem?]
        rw [List.getElem?_set_ne (Ne.symm hynat)]
    · have hcond : ¬ (x' = x ∧ y' = y ∧ 0 ≤ y ∧ y < (b.height : Int) ∧ 0 ≤ x ∧
          x < (b.width : Int)) := by
        rintro ⟨rfl, rfl, hb'⟩
        exact hq hb'
      rw [if_neg hcond]
      simp only [MathBox.get_char]
      rw [if_neg hq, if_neg hq]
  · have hcond : ¬ (x' = x ∧ y' = y ∧ 0 ≤ y ∧ y < (b.height : Int) ∧ 0 ≤ x ∧
        x < (b.width : Int)) := by
      rintro ⟨h1', h2', h3'⟩
      exact hb h3'
    rw [MathBox.set_char_eq_of_oob c hb, if_neg hcond]

/-! ## Frame lemmas: the copy loops never change a box's dimensions -/

theorem foldl_width_eq {α : Type} (l : List α) (f : MathBox → α → MathBox)
    (hf : ∀ b a, (f b a).width = b.width) (b : MathBox) :
    (l.foldl f b).width = b.width := by
  induction l generalizing b with
  | nil => rfl
  | cons a t ih => rw [List.foldl_cons, ih, hf]

theorem foldl_height_eq {α : Type} (l : List α) (f : MathBox → α → MathBox)
    (hf : ∀ b a, (f b a).height = b.height) (b : MathBox) :
    (l.foldl f b).height = b.height := by
  induction l generalizing b with
  | nil => rfl
  | cons a t ih => rw [List.foldl_cons, ih, hf]

theorem foldl_baseline_eq {α : Type} (l : List α) (f : MathBox → α → MathBox)
    (hf : ∀ b a, (f b a).baseline = b.baseline) (b : MathBox) :
    (l.foldl f b).baseline = b.baseline := by
  induction l generalizing b with
  | nil => rfl
  | cons a t ih => rw [List.foldl_cons, ih, hf]

theorem foldl_shape {α : Type} (l : List α) (f : MathBox → α → MathBox)
    (hf : ∀ b a, b.Shape → (f b a).Shape) (b : MathBox) (hb : b.Shape) :
    (l.foldl f b).Shape := by
  induction l generalizing b with
  | nil => exact hb
  | cons a t ih => exact ih _ (hf _ _ hb)

theorem copy_cell_step_width (src : MathBox) (dx dy : Nat) (keep) (y : Nat)
    (b : MathBox) (x : Nat) :
    (copy_cell_step src dx dy keep y b x).width = b.width := by
  unfold copy_cell_step
  split
  · exact MathBox.set_char_width ..
  · rfl

theorem copy_cell_step_height (src : MathBox) (dx dy : Nat) (keep) (y : Nat)
    (b : MathBox) (x : Nat) :
    (copy_cell_step src dx dy keep y b x).height = b.height := by
  unfold copy_cell_step
  split
  · exact MathBox.set_char_height ..
  · rfl

theorem copy_cell_step_baseline (src : MathBox) (dx dy : Nat) (keep) (y : Nat)
    (b : MathBox) (x : Nat) :
    (copy_cell_step src dx dy keep y b x).baseline = b.baseline := by
  unfold copy_cell_step
  split
  · exact MathBox.set_char_baseline ..
  · rfl

theorem copy_cell_step_shape (src : MathBox) (dx dy : Nat) (keep) (y : Nat)
    (b : MathBox) (x : Nat) (hb : b.Shape) :
    (copy_cell_step src dx dy keep y b x).Shape := by
  unfold copy_cell_step
  split
  · exact MathBox.set_char_shape _ _ _ hb
  · exact hb

theorem copy_row_width (src : MathBox) (dx dy : Nat) (keep) (y : Nat)
    (b : MathBox) : (copy_row src dx dy keep y b).width = b.width :=
  foldl_width_eq _ _ (fun b' x => copy_cell_step_width src dx dy keep y b' x) b

theorem copy_row_height (src : MathBox) (dx dy : Nat) (keep) (y : Nat)
    (b : MathBox) : (copy_row src dx dy keep y b).height = b.height :=
  foldl_height_eq _ _ (fun b' x => copy_cell_step_height src dx dy keep y b' x) b

theorem copy_row_baseline (src : MathBox) (dx dy : Nat) (keep) (y : Nat)
    (b : MathBox) : (copy_row src dx dy keep y b).baseline = b.baseline :=
  foldl_baseline_eq _ _ (fun b' x => copy_cell_step_baseline src dx dy keep y b' x) b

theorem copy_row_shape (src : MathBox) (dx dy : Nat) (keep) (y : Nat)
    (b : MathBox) (hb : b.Shape) : (copy_row src dx dy keep y b).Shape :=
  foldl_shape _ _ (fun b' x => copy_cell_step_shape src dx dy keep y b' x) b hb

theorem copy_cells_width (src : MathBox) (dx dy : Nat) (keep) (dst : MathBox) :
    (copy_cells src dx dy keep dst).width = dst.width :=
  foldl_width_eq _ _ (fun b y => copy_row_width src dx dy keep y b) dst

theorem copy_cells_height (src : MathBox) (dx dy : Nat) (keep) (dst : MathBox) :
    (copy_cells src dx dy keep dst).height = dst.height :=
  foldl_height_eq _ _ (fun b y => copy_row_height src dx dy keep y b) dst

theorem copy_cells_baseline (src : MathBox) (dx dy : Nat) (keep) (dst : MathBox) :
    (copy_cells src dx dy keep dst).baseline = dst.baseline :=
  foldl_baseline_eq _ _ (fun b y => copy_row_baseline src dx dy keep y b) dst

theorem copy_cells_shape (src : MathBox) (dx dy : Nat) (keep) (dst : MathBox)
    (hd : dst.Shape) : (copy_cells src dx dy keep dst).Shape :=
  foldl_shape _ _ (fun b y => copy_row_shape src dx dy keep y b) dst hd

/-- Copying never breaks the invariant of the destination box. -/
theorem copy_cells_inv (src : MathBox) (dx dy : Nat) (keep) (dst : MathBox)
    (hd : dst.Inv) : (copy_cells src dx dy keep dst).Inv := by
  have hS := copy_cells_shape src dx dy keep dst (MathBox.inv_shape hd)
  refine ⟨?_, ?_, hS.1, hS.2⟩
  · rw [copy_cells_height]; exact hd.1
  · rw [copy_cells_height, copy_cells_baseline]; exact hd.2.1

/-! ## Pointwise characterisation of the copy loops -/

/-- What the inner copy loop wrote at a grid position: the source cell
when the position lies in the copied row segment and the guard accepted
it, the old destination cell otherwise. -/
theorem copy_row_aux_get (src : MathBox) (dx dy : Nat) (keep : Char → Nat → Nat → Bool)
    (y : Nat) (n : Nat) (dst : MathBox) (hS : dst.Shape) (X Y : Nat) :
    ((List.range n).foldl (copy_cell_step src dx dy keep y) dst).get_char (↑X) (↑Y) =
      if dx ≤ X ∧ X - dx < n ∧ Y = y + dy ∧
          keep (src.get_char (↑(X - dx)) (↑y)) (X - dx) y = true ∧
          X < dst.width ∧ Y < dst.height
      then src.get_char (↑(X - dx)) (↑y)
      else dst.get_char (↑X) (↑Y) := by
  induction n with
  | zero =>
    rw [if_neg (by omega)]
    rfl
  | succ m ih =>
    rw [List.range_succ, List.foldl_append, List.foldl_cons, List.foldl_nil]
    set A := (List.range m).foldl (copy_cell_step src dx dy keep y) dst with hA
    have hAS : A.Shape :=
      foldl_shape _ _ (fun b x => copy_cell_step_shape src dx dy keep y b x) dst hS
    have hAw : A.width = dst.width :=
      foldl_width_eq _ _ (fun b x => copy_cell_step_width src dx dy keep y b x) dst
    have hAh : A.height = dst.height :=
      foldl_height_eq _ _ (fun b x => copy_cell_step_height src dx dy keep y b x) dst
    unfold copy_cell_step
    by_cases hk : keep (src.get_char (↑m) (↑y)) m y = true
    · rw [if_pos hk, MathBox.get_set_char hAS]
      by_cases hlast : dx ≤ X ∧ X - dx = m ∧ Y = y + dy ∧ X < dst.width ∧ Y < dst.height
      · obtain ⟨l1, l2, l3, l4, l5⟩ := hlast
        have hXeq : (X : Int) = ((m + dx : Nat) : Int) := by push_cast; omega
        have hYeq : (Y : Int) = ((y + dy : Nat) : Int) := by push_cast; omega
        rw [if_pos ⟨hXeq, hYeq, by positivity, by rw [hAh]; push_cast; omega,
          by positivity, by rw [hAw]; push_cast; omega⟩]
        have hsrc : X - dx = m := l2
        rw [if_pos ⟨l1, by omega, l3, by rw [hsrc]; exact hk, l4, l5⟩, hsrc]
      · have hne : ¬ ((X : Int) = ((m + dx : Nat) : Int) ∧
            (Y : Int) = ((y + dy : Nat) : Int) ∧
            (0 : Int) ≤ ↑(y + dy) ∧ ((y + dy : Nat) : Int) < (A.height : Int) ∧
            (0 : Int) ≤ ↑(m + dx) ∧ ((m + dx : Nat) : Int) < (A.width : Int)) := by
          rw [hAh, hAw]
          rintro ⟨e1, e2, _, e4, _, e6⟩
          exact hlast ⟨by omega, by omega, by omega, by omega, by omega⟩
        rw [if_neg hne, ih]
        by_cases hc : dx ≤ X ∧ X - dx < m ∧ Y = y + dy ∧
            keep (src.get_char (↑(X - dx)) (↑y)) (X - dx) y = true ∧
            X < dst.width ∧ Y < dst.height
        · rw [if_pos hc, if_pos ⟨hc.1, by omega, hc.2.2⟩]
        · rw [if_neg hc, if_neg ?hfull]
          case hfull =>
            rintro ⟨f1, f2, f3, f4, f5, f6⟩
            rcases Nat.lt_or_ge (X - dx) m with hlt | hge
            · exact hc ⟨f1, hlt, f3, f4, f5, f6⟩
            · exact hlast ⟨f1, by omega, f3, f5, f6⟩
    · rw [if_neg hk, ih]
      by_cases hc : dx ≤ X ∧ X - dx < m ∧ Y = y + dy ∧
          keep (src.get_char (↑(X - dx)) (↑y)) (X - dx) y = true ∧
          X < dst.width ∧ Y < dst.height
      · rw [if_pos hc, if_pos ⟨hc.1, by omega, hc.2.2⟩]
      · rw [if_neg hc, if_neg ?hfull2]
        case hfull2 =>
          rintro ⟨f1, f2, f3, f4, f5, f6⟩
          rcases Nat.lt_or_ge (X - dx) m with hlt | hge
          · exact hc ⟨f1, hlt, f3, f4, f5, f6⟩
          · have hxm : X - dx = m := by omega
            rw [hxm] at f4
            exact hk f4

/-- What `copy_row` wrote (the inner loop run over the full width). -/
theorem copy_row_get (src : MathBox) (dx dy : Nat) (keep : Char → Nat → Nat → Bool)
    (y : Nat) (dst : MathBox) (hS : dst.Shape) (X Y : Nat) :
    (copy_row src dx dy keep y dst).get_char (↑X) (↑Y) =
      if dx ≤ X ∧ X - dx < src.width ∧ Y = y + dy ∧
          keep (src.get_char (↑(X - dx)) (↑y)) (X - dx) y = true ∧
          X < dst.width ∧ Y < dst.height
      then src.get_char (↑(X - dx)) (↑y)
      else dst.get_char (↑X) (↑Y) :=
  copy_row_aux_get src dx dy keep y src.width dst hS X Y

/-- What the double copy loop wrote at a grid position: the source cell
when the position lies in the translated source rectangle, the source
cell passed the guard and the position is inside the destination; the old
destination cell otherwise. -/
theorem copy_cells_aux_get (src : MathBox) (dx dy : Nat)
    (keep : Char → Nat → Nat → Bool) (n : Nat) (dst : MathBox) (hS : dst.Shape)
    (X Y : Nat) :
    ((List.range n).foldl (fun acc (y : Nat) => copy_row src dx dy keep y acc)
        dst).get_char (↑X) (↑Y) =
      if dx ≤ X ∧ X - dx < src.width ∧ dy ≤ Y ∧ Y - dy < n ∧
          keep (src.get_char (↑(X - dx)) (↑(Y - dy))) (X - dx) (Y - dy) = true ∧
          X < dst.width ∧ Y < dst.height
      then src.get_char (↑(X - dx)) (↑(Y - dy))
      else dst.get_char (↑X) (↑Y) := by
  induction n with
  | zero =>
    rw [if_neg (by omega)]
    rfl
  | succ m ih =>
    rw [List.range_succ, List.foldl_append, List.foldl_cons, List.foldl_nil]
    set A := (List.range m).foldl (fun acc (y : Nat) => copy_row src dx dy keep y acc)
      dst with hA
    have hAS : A.Shape :=
      foldl_shape _ _ (fun b y => copy_row_shape src dx dy keep y b) dst hS
    have hAw : A.width = dst.width :=
      foldl_width_eq _ _ (fun b y => copy_row_width src dx dy keep y b) dst
    have hAh : A.height = dst.height :=
      foldl_height_eq _ _ (fun b y => copy_row_height src dx dy keep y b) dst
    rw [copy_row_get src dx dy keep m A hAS X Y, hAw, hAh, ih]
    by_cases hrow : dx ≤ X ∧ X - dx < src.width ∧ Y = m + dy ∧
        keep (src.get_char (↑(X - dx)) (↑m)) (X - dx) m = true ∧
        X < dst.width ∧ Y < dst.height
    · rw [if_pos hrow]
      obtain ⟨r1, r2, r3, r4, r5, r6⟩ := hrow
      have hYm : Y - dy = m := by omega
      rw [if_pos ⟨r1, r2, by omega, by omega, by rw [hYm]; exact r4, r5, r6⟩, hYm]
    · by_cases hc : dx ≤ X ∧ X - dx < src.width ∧ dy ≤ Y ∧ Y - dy < m ∧
          keep (src.get_char (↑(X - dx)) (↑(Y - dy))) (X - dx) (Y - dy) = true ∧
          X < dst.width ∧ Y < dst.height
      · rw [if_neg hrow, if_pos hc, if_pos ⟨hc.1, hc.2.1, hc.2.2.1, by omega, hc.2.2.2.2⟩]
      · rw [if_neg hrow, if_neg hc, if_neg ?hfull3]
        case hfull3 =>
          rintro ⟨f1, f2, f3, f4, f5, f6, f7⟩
          rcases Nat.lt_or_ge (Y - dy) m with hlt | hge
          · exact hc ⟨f1, f2, f3, hlt, f5, f6, f7⟩
          · have hym : Y - dy = m := by omega
            refine hrow ⟨f1, f2, by omega, ?_, f6, f7⟩
            rw [← hym]
            exact f5

theorem copy_cells_get (src : MathBox) (dx dy : Nat)
    (keep : Char → Nat → Nat → Bool) (dst : MathBox) (hS : dst.Shape)
    (X Y : Nat) :
    (copy_cells src dx dy keep dst).get_char (↑X) (↑Y) =
      if dx ≤ X ∧ X - dx < src.width ∧ dy ≤ Y ∧ Y - dy < src.height ∧
          keep (src.get_char (↑(X - dx)) (↑(Y - dy))) (X - dx) (Y - dy) = true ∧
          X < dst.width ∧ Y < dst.height
      then src.get_char (↑(X - dx)) (↑(Y - dy))
      else dst.get_char (↑X) (↑Y) :=
  copy_cells_aux_get src dx dy keep src.height dst hS X Y

/-- An unconditional copy lands the source cell at the translated
position. -/
theorem copy_cells_get_target (src : MathBox) (dx dy : Nat) (dst : MathBox)
    (hS : dst.Shape) (x y : Nat) (hx : x < src.width) (hy : y < src.height)
    (hbx : x + dx < dst.width) (hby : y + dy < dst.height) :
    (copy_cells src dx dy (fun _ _ _ => true) dst).get_char (↑(x + dx)) (↑(y + dy))
      = src.get_char (↑x) (↑y) := by
  rw [copy_cells_get src dx dy _ dst hS (x + dx) (y + dy)]
  rw [if_pos ⟨by omega, by omega, by omega, by omega, rfl, hbx, hby⟩]
  congr 2 <;> omega

/-- A copy leaves every position outside the translated source rectangle
unchanged. -/
theorem copy_cells_get_outside (src : MathBox) (dx dy : Nat)
    (keep : Char → Nat → Nat → Bool) (dst : MathBox) (hS : dst.Shape)
    (X Y : Nat)
    (h : X < dx ∨ dx + src.width ≤ X ∨ Y < dy ∨ dy + src.height ≤ Y) :
    (copy_cells src dx dy keep dst).get_char (↑X) (↑Y)
      = dst.get_char (↑X) (↑Y) := by
  rw [copy_cells_get src dx dy keep dst hS X Y, if_neg (by omega)]

/-! ## Maxima of lists of naturals (as computed by the source's
`max(...)` over a generator) -/

theorem nat_foldl_max_le (l : List Nat) (init : Nat) (a : Nat) (ha : a ∈ l) :
    a ≤ l.foldl max init := by
  induction l generalizing init with
  | nil => cases ha
  | cons h t ih =>
    rcases List.mem_cons.mp ha with rfl | ha'
    · calc a ≤ max init a := le_max_right ..
        _ ≤ (t.foldl max (max init a)) := by
          clear ih ha
          induction t generalizing init a with
          | nil => exact le_refl _
          | cons h2 t2 ih2 =>
            rw [List.foldl_cons]
            calc max init a ≤ max (max init a) h2 := le_max_left ..
              _ ≤ _ := ih2 ..
    · exact ih _ ha'

theorem nat_foldl_max_init_le (l : List Nat) (init : Nat) :
    init ≤ l.foldl max init := by
  induction l generalizing init with
  | nil => exact le_refl _
  | cons h t ih =>
    rw [List.foldl_cons]
    calc init ≤ max init h := le_max_left ..
      _ ≤ _ := ih _

theorem nat_foldl_max_attained (l : List Nat) (init : Nat) :
    l.foldl max init = init ∨ ∃ a ∈ l, l.foldl max init = a := by
  induction l generalizing init with
  | nil => exact Or.inl rfl
  | cons h t ih =>
    rw [List.foldl_cons]
    rcases ih (max init h) with heq | ⟨a, ha, heq⟩
    · rw [heq]
      rcases Nat.le_total init h with hle | hle
      · exact Or.inr ⟨h, List.mem_cons_self .., by rw [Nat.max_eq_right hle]⟩
      · exact Or.inl (Nat.max_eq_left hle)
    · exact Or.inr ⟨a, List.mem_cons.mpr (Or.inr ha), heq⟩

/-! ## Lemmas about `horizontal_concat` -/

theorem concat_copy_width (box : MathBox) (xo yo H W : Nat) (r : MathBox) :
    (concat_copy box xo yo H W r).width = r.width := copy_cells_width ..

theorem concat_copy_height (box : MathBox) (xo yo H W : Nat) (r : MathBox) :
    (concat_copy box xo yo H W r).height = r.height := copy_cells_height ..

theorem concat_copy_baseline (box : MathBox) (xo yo H W : Nat) (r : MathBox) :
    (concat_copy box xo yo H W r).baseline = r.baseline := copy_cells_baseline ..

theorem concat_copy_shape (box : MathBox) (xo yo H W : Nat) (r : MathBox)
    (h : r.Shape) : (concat_copy box xo yo H W r).Shape := copy_cells_shape _ _ _ _ _ h

theorem concat_place_width (l : List MathBox) (x0 B H W : Nat) (acc : MathBox) :
    (concat_place l x0 B H W acc).width = acc.width := by
  induction l generalizing x0 acc with
  | nil => rfl
  | cons b t ih => rw [concat_place, ih, concat_copy_width]

theorem concat_place_height (l : List MathBox) (x0 B H W : Nat) (acc : MathBox) :
    (concat_place l x0 B H W acc).height = acc.height := by
  induction l generalizing x0 acc with
  | nil => rfl
  | cons b t ih => rw [concat_place, ih, concat_copy_height]

theorem concat_place_baseline (l : List MathBox) (x0 B H W : Nat) (acc : MathBox) :
    (concat_place l x0 B H W acc).baseline = acc.baseline := by
  induction l generalizing x0 acc with
  | nil => rfl
  | cons b t ih => rw [concat_place, ih, concat_copy_baseline]

theorem concat_place_shape (l : List MathBox) (x0 B H W : Nat) (acc : MathBox)
    (h : acc.Shape) : (concat_place l x0 B H W acc).Shape := by
  induction l generalizing x0 acc with
  | nil => exact h
  | cons b t ih => rw [concat_place]; exact ih _ _ (concat_copy_shape _ _ _ _ _ _ h)

/-- Placement writes only at columns at or right of the running offset. -/
theorem concat_place_get_left (l : List MathBox) (x0 B H W : Nat) (acc : MathBox)
    (hS : acc.Shape) (X Y : Nat) (hX : X < x0) :
    (concat_place l x0 B H W acc).get_char (↑X) (↑Y) = acc.get_char (↑X) (↑Y) := by
  induction l generalizing x0 acc with
  | nil => rfl
  | cons b t ih =>
    rw [concat_place, ih _ _ (concat_copy_shape _ _ _ _ _ _ hS) (by omega)]
    exact copy_cells_get_outside _ _ _ _ _ hS X Y (Or.inl hX)

/-- The box at index `i` of the placement list lands, cell by non-blank
cell, at horizontal offset `x0 +` (sum of the widths before it), shifted
down by `B -` its own baseline. -/
theorem concat_place_get_mem (l : List MathBox) (B H W : Nat) :
    ∀ (x0 : Nat) (acc : MathBox), acc.Shape → acc.width = W → acc.height = H →
    (∀ b ∈ l, b.Inv) → (∀ b ∈ l, b.baseline ≤ B) →
    (∀ b ∈ l, B - b.baseline + b.height ≤ H) →
    ∀ (hW : x0 + (l.map (·.width)).sum ≤ W)
      (i : Nat) (hi : i < l.length) (x y : Nat),
      x < l[i].width → y < l[i].height →
      l[i].get_char (↑x) (↑y) ≠ ' ' →
      (concat_place l x0 B H W acc).get_char
          (↑(x0 + ((l.take i).map (·.width)).sum + x))
          (↑(B - l[i].baseline + y))
        = l[i].get_char (↑x) (↑y) := by
  induction l with
  | nil =>
    intro x0 acc _ _ _ _ _ _ _ i hi
    exact absurd hi (by simp)
  | cons b t ih =>
    intro x0 acc hS haccW haccH hInv hB hH hW i hi x y hx hy hc
    have hbInv : b.Inv := hInv b (List.mem_cons_self ..)
    rcases i with _ | j
    · -- the head box: written by the first copy, untouched afterwards
      simp only [List.getElem_cons_zero] at hx hy hc ⊢
      simp only [List.take_zero, List.map_nil, List.sum_nil, Nat.add_zero]
      rw [concat_place]
      have hS' : (concat_copy b x0 (B - b.baseline) H W acc).Shape :=
        concat_copy_shape _ _ _ _ _ _ hS
      rw [concat_place_get_left _ _ _ _ _ _ hS' _ _ (by
        simp only [List.map_cons, List.sum_cons] at hW
        omega)]
      unfold concat_copy
      rw [copy_cells_get _ _ _ _ _ hS]
      have hxx : x0 + x - x0 = x := by omega
      have hyy : B - b.baseline + y - (B - b.baseline) = y := by omega
      rw [if_pos ?hcond]
      · rw [hxx, hyy]
      case hcond =>
        refine ⟨by omega, by rw [hxx]; omega, by omega, by rw [hyy]; omega, ?_, ?_, ?_⟩
        · rw [hxx, hyy]
          simp only [decide_eq_true_eq]
          refine ⟨hc, ?_, ?_⟩
          · have := hH b (List.mem_cons_self ..)
            omega
          · simp only [List.map_cons, List.sum_cons] at hW
            omega
        · rw [haccW]
          simp only [List.map_cons, List.sum_cons] at hW
          omega
        · rw [haccH]
          have := hH b (List.mem_cons_self ..)
          omega
    · -- a later box: handled by the recursive placement at offset x0 + b.width
      simp only [List.getElem_cons_succ] at hx hy hc ⊢
      rw [concat_place]
      have hS' : (concat_copy b x0 (B - b.baseline) H W acc).Shape :=
        concat_copy_shape _ _ _ _ _ _ hS
      have := ih (x0 + b.width) (concat_copy b x0 (B - b.baseline) H W acc) hS'
        (by rw [concat_copy_width, haccW]) (by rw [concat_copy_height, haccH])
        (fun b' hb' => hInv b' (List.mem_cons_of_mem _ hb'))
        (fun b' hb' => hB b' (List.mem_cons_of_mem _ hb'))
        (fun b' hb' => hH b' (List.mem_cons_of_mem _ hb'))
        (by simp only [List.map_cons, List.sum_cons] at hW; omega)
        j (by simpa using Nat.lt_of_succ_lt_succ hi) x y hx hy hc
      simp only [List.take_succ_cons, List.map_cons, List.sum_cons] at this ⊢
      rw [show x0 + (b.width + ((t.take j).map (·.width)).sum) + x
          = x0 + b.width + ((t.take j).map (·.width)).sum + x by omega]
      exact this

theorem kept_boxes_sub {l : List MathBox} {b : MathBox} (h : b ∈ kept_boxes l) :
    b ∈ l := (List.mem_filter.mp h).1

theorem horizontal_concat_of_kept_nil (l : List MathBox)
    (h : kept_boxes l = []) : horizontal_concat l = MathBox.ofText "" := by
  unfold horizontal_concat
  rw [h]

theorem horizontal_concat_of_kept_single (l : List MathBox) (b : MathBox)
    (h : kept_boxes l = [b]) : horizontal_concat l = b := by
  unfold horizontal_concat
  rw [h]

theorem horizontal_concat_of_kept_two (l : List MathBox) (b1 b2 : MathBox)
    (rest : List MathBox) (h : kept_boxes l = b1 :: b2 :: rest) :
    horizontal_concat l = concat_build (b1 :: b2 :: rest) := by
  unfold horizontal_concat
  rw [h]

theorem concat_build_width (kept : List MathBox) :
    (concat_build kept).width = (kept.map (·.width)).sum := by
  unfold concat_build
  rw [concat_place_width]
  rfl

theorem concat_build_baseline (kept : List MathBox) :
    (concat_build kept).baseline = (kept.map (·.baseline)).foldl max 0 := by
  unfold concat_build
  rw [concat_place_baseline]
  rfl

theorem concat_build_height (kept : List MathBox) :
    (concat_build kept).height = (kept.map (·.baseline)).foldl max 0 +
      (kept.map fun b => b.height - b.baseline).foldl max 0 := by
  unfold concat_build
  rw [concat_place_height]
  rfl

theorem concat_build_inv (kept : List MathBox) (hne : kept ≠ [])
    (hInv : ∀ b ∈ kept, b.Inv) : (concat_build kept).Inv := by
  obtain ⟨b0, rest, rfl⟩ := List.exists_cons_of_ne_nil hne
  have hb0 : b0.Inv := hInv b0 (List.mem_cons_self ..)
  have hbel : 1 ≤ ((b0 :: rest).map fun b => b.height - b.baseline).foldl max 0 := by
    have hmem : b0.height - b0.baseline ∈ ((b0 :: rest).map fun b => b.height - b.baseline) :=
      List.mem_map_of_mem _ (List.mem_cons_self ..)
    have hle := nat_foldl_max_le _ 0 _ hmem
    have hblh := hb0.2.1
    omega
  have hshape : (concat_build (b0 :: rest)).Shape := by
    unfold concat_build
    exact concat_place_shape _ _ _ _ _ _ (MathBox.create_empty_shape _ _ _)
  refine ⟨?_, ?_, hshape.1, hshape.2⟩
  · rw [concat_build_height]
    exact Nat.add_pos_right _ hbel
  · rw [concat_build_height, concat_build_baseline]
    exact Nat.lt_add_of_pos_right hbel

theorem horizontal_concat_inv (l : List MathBox) (h : ∀ b ∈ l, b.Inv) :
    (horizontal_concat l).Inv := by
  rcases hk : kept_boxes l with _ | ⟨b1, _ | ⟨b2, rest⟩⟩
  · rw [horizontal_concat_of_kept_nil l hk]
    exact MathBox.ofText_inv ""
  · rw [horizontal_concat_of_kept_single l b1 hk]
    exact h b1 (kept_boxes_sub (hk ▸ List.mem_cons_self ..))
  · rw [horizontal_concat_of_kept_two l b1 b2 rest hk]
    exact concat_build_inv _ (by simp) fun b hb => h b (kept_boxes_sub (hk ▸ hb))

/-! ## Invariant preservation through each layout rule -/

theorem MathBox.set_char_inv {b : MathBox} (x y : Int) (c : Char) (h : b.Inv) :
    (b.set_char x y c).Inv := by
  have hS := MathBox.set_char_shape x y c (MathBox.inv_shape h)
  refine ⟨?_, ?_, hS.1, hS.2⟩
  · rw [MathBox.set_char_height]; exact h.1
  · rw [MathBox.set_char_height, MathBox.set_char_baseline]; exact h.2.1

theorem foldl_inv {α : Type} (l : List α) (f : MathBox → α → MathBox)
    (hf : ∀ b a, b.Inv → (f b a).Inv) (b : MathBox) (hb : b.Inv) :
    (l.foldl f b).Inv := by
  induction l generalizing b with
  | nil => exact hb
  | cons a t ih => exact ih _ (hf _ _ hb)

theorem place_lines_inv (lines : List (List Char)) (tw : Nat) (r : MathBox)
    (hr : r.Inv) : (place_lines lines tw r).Inv := by
  unfold place_lines
  refine foldl_inv _ _ (fun b p hb => ?_) r hr
  refine foldl_inv _ _ (fun b2 q hb2 => ?_) b hb
  split
  · exact MathBox.set_char_inv _ _ _ hb2
  · exact hb2

theorem table_place_rows_inv (rows : List MathBox) (i y0 mw : Nat) (hw : Bool)
    (r : MathBox) (hr : r.Inv) : (table_place_rows rows i y0 mw hw r).Inv := by
  induction rows generalizing i y0 r with
  | nil => exact hr
  | cons row rest ih =>
    rw [table_place_rows]
    exact ih _ _ _ (copy_cells_inv _ _ _ _ _ hr)

theorem table_place_rows_width (rows : List MathBox) (i y0 mw : Nat) (hw : Bool)
    (r : MathBox) : (table_place_rows rows i y0 mw hw r).width = r.width := by
  induction rows generalizing i y0 r with
  | nil => rfl
  | cons row rest ih => rw [table_place_rows, ih, copy_cells_width]

theorem table_place_rows_height (rows : List MathBox) (i y0 mw : Nat) (hw : Bool)
    (r : MathBox) : (table_place_rows rows i y0 mw hw r).height = r.height := by
  induction rows generalizing i y0 r with
  | nil => rfl
  | cons row rest ih => rw [table_place_rows, ih, copy_cells_height]

theorem table_place_rows_shape (rows : List MathBox) (i y0 mw : Nat) (hw : Bool)
    (r : MathBox) (hr : r.Shape) : (table_place_rows rows i y0 mw hw r).Shape := by
  induction rows generalizing i y0 r with
  | nil => exact hr
  | cons row rest ih =>
    rw [table_place_rows]
    exact ih _ _ _ (copy_cells_shape _ _ _ _ _ hr)

theorem fraction_layout_inv (iv : Bool) (n d : MathBox) (hn : n.Inv)
    (hd : d.Inv) : (fraction_layout iv n d).Inv := by
  unfold fraction_layout
  split
  · exact copy_cells_inv _ _ _ _ _ (copy_cells_inv _ _ _ _ _
      (MathBox.create_empty_inv _ _ _ (by have := hn.1; have := hd.1; omega)
        (by have := hn.1; have := hd.1; omega)))
  · refine copy_cells_inv _ _ _ _ _ (foldl_inv _ _ (fun b a hb => ?_) _
      (copy_cells_inv _ _ _ _ _
        (MathBox.create_empty_inv _ _ _ (by have := hn.1; omega) (by omega))))
    exact MathBox.set_char_inv _ _ _ hb

theorem subscript_multiline_inv (base subscript : MathBox) (hb : base.Inv) :
    (subscript_multiline base subscript).Inv := by
  unfold subscript_multiline
  refine copy_cells_inv _ _ _ _ _ (copy_cells_inv _ _ _ _ _
    (MathBox.create_empty_inv _ _ _ ?_ ?_))
  · have := hb.1; omega
  · have h1 := hb.1
    have h2 := hb.2.1
    have : base.height ≤ max base.height (base.baseline + 1 + subscript.height) :=
      le_max_left ..
    omega

theorem subscript_layout_inv (u : Bool) (base subscript : MathBox)
    (hb : base.Inv) : (subscript_layout u base subscript).Inv := by
  unfold subscript_layout
  split
  · dsimp only
    split
    · exact MathBox.ofText_inv _
    · exact subscript_multiline_inv _ _ hb
  · exact subscript_multiline_inv _ _ hb

theorem superscript_multiline_inv (base superscript : MathBox) (hb : base.Inv) :
    (superscript_multiline base superscript).Inv := by
  unfold superscript_multiline
  refine copy_cells_inv _ _ _ _ _ (copy_cells_inv _ _ _ _ _
    (MathBox.create_empty_inv _ _ _ ?_ ?_))
  · have := hb.1; omega
  · have := hb.2.1; omega

theorem superscript_layout_inv (u : Bool) (base superscript : MathBox)
    (hb : base.Inv) : (superscript_layout u base superscript).Inv := by
  unfold superscript_layout
  split
  · dsimp only
    split
    · exact MathBox.ofText_inv _
    · exact superscript_multiline_inv _ _ hb
  · exact superscript_multiline_inv _ _ hb

theorem subsup_diagonal_inv (base subscript superscript : MathBox)
    (hb : base.Inv) : (subsup_diagonal base subscript superscript).Inv := by
  unfold subsup_diagonal
  refine copy_cells_inv _ _ _ _ _ (copy_cells_inv _ _ _ _ _
    (copy_cells_inv _ _ _ _ _ (MathBox.create_empty_inv _ _ _ ?_ ?_)))
  · have := hb.1; omega
  · have := hb.2.1; omega

theorem subsup_layout_inv (u : Bool) (base subscript superscript : MathBox)
    (hb : base.Inv) : (subsup_layout u base subscript superscript).Inv := by
  unfold subsup_layout
  dsimp only
  split
  · refine copy_cells_inv _ _ _ _ _ (copy_cells_inv _ _ _ _ _
      (copy_cells_inv _ _ _ _ _ (MathBox.create_empty_inv _ _ _ ?_ ?_)))
    · have := hb.1; omega
    · have := hb.2.1; omega
  · split
    · split
      · exact MathBox.ofText_inv _
      · exact subsup_diagonal_inv _ _ _ hb
    · exact subsup_diagonal_inv _ _ _ hb

theorem under_layout_inv (base under : MathBox) (s : Bool) (hb : base.Inv) :
    (under_layout base under s).Inv := by
  unfold under_layout
  refine copy_cells_inv _ _ _ _ _ (copy_cells_inv _ _ _ _ _
    (MathBox.create_empty_inv _ _ _ ?_ ?_))
  · have := hb.1; omega
  · have := hb.2.1; omega

theorem underover_layout_inv (base under over : MathBox) (s : Bool)
    (hb : base.Inv) : (underover_layout base under over s).Inv := by
  unfold underover_layout
  refine copy_cells_inv _ _ _ _ _ (copy_cells_inv _ _ _ _ _
    (copy_cells_inv _ _ _ _ _ (MathBox.create_empty_inv _ _ _ ?_ ?_)))
  · have := hb.1; omega
  · have := hb.2.1; omega

theorem generate_sqrt_radical_length (h l : Nat) :
    (generate_sqrt_radical h l).length = if h < 3 then 3 else h := by
  unfold generate_sqrt_radical
  by_cases hc : h < 3
  · rw [if_pos hc]
    dsimp only
    simp
  · rw [if_neg hc]
    dsimp only
    rw [if_pos (by omega : h > 2)]
    simp only [List.length_cons, List.length_append, List.length_map,
      List.length_range', List.length_singleton, List.length_nil]
    omega

theorem square_root_layout_inv (inner : MathBox) (hi : inner.Inv) :
    (square_root_layout inner).Inv := by
  unfold square_root_layout
  split
  · exact MathBox.ofText_inv _
  · rename_i hne
    refine copy_cells_inv _ _ _ _ _ (place_lines_inv _ _ _
      (MathBox.create_empty_inv _ _ _ ?_ ?_))
    · rw [generate_sqrt_radical_length]
      split <;> omega
    · rw [generate_sqrt_radical_length]
      have h1 := hi.1
      have h2 := hi.2.1
      split <;> omega

theorem nth_root_layout_inv (u : Bool) (radicand index : MathBox)
    (hr : radicand.Inv) : (nth_root_layout u radicand index).Inv := by
  unfold nth_root_layout
  split
  · dsimp only
    split
    · exact MathBox.ofText_inv _
    · exact MathBox.ofText_inv _
  · refine copy_cells_inv _ _ _ _ _ (place_lines_inv _ _ _
      (MathBox.create_empty_inv _ _ _ ?_ ?_))
    · exact Nat.lt_of_lt_of_le (by omega) (le_max_right _ _)
    · have h1 := hr.1
      have h2 := hr.2.1
      exact Nat.lt_of_lt_of_le (by omega) (le_max_right _ _)

theorem table_layout_inv (rows : List MathBox) (hw : Bool) (hne : rows ≠ [])
    (hrows : ∀ r ∈ rows, r.Inv) : (table_layout rows hw).Inv := by
  have hth : 1 ≤ (rows.map (·.height)).sum +
      (if hw = true ∧ 2 ≤ rows.length then 1 else 0) := by
    obtain ⟨r0, rest, rfl⟩ := List.exists_cons_of_ne_nil hne
    have := (hrows r0 (List.mem_cons_self ..)).1
    simp only [List.map_cons, List.sum_cons]
    omega
  unfold table_layout
  dsimp only
  have hshape := table_place_rows_shape rows 0 0
    ((rows.map (·.width)).foldl max 0) hw
    (MathBox.create_empty ((rows.map (·.width)).foldl max 0)
      ((rows.map (·.height)).sum + (if hw = true ∧ 2 ≤ rows.length then 1 else 0)) 0)
    (MathBox.create_empty_shape _ _ _)
  refine ⟨?_, ?_, hshape.1, hshape.2⟩
  · rw [table_place_rows_height]
    exact hth
  · rw [table_place_rows_height]
    exact Nat.div_lt_self hth (by omega)

theorem table_row_spacing_inv (cells : List MathBox)
    (h : ∀ c ∈ cells, c.Inv) : ∀ b ∈ table_row_spacing cells, b.Inv := by
  induction cells with
  | nil => intro b hb; cases hb
  | cons c rest ih =>
    intro b hb
    rcases rest with _ | ⟨c2, rest2⟩
    · simp only [table_row_spacing, List.mem_singleton] at hb
      subst hb
      exact h _ (List.mem_cons_self ..)
    · simp only [table_row_spacing] at hb
      rcases List.mem_cons.mp hb with rfl | hb2
      · exact h _ (List.mem_cons_self ..)
      · rcases List.mem_cons.mp hb2 with rfl | hb3
        · exact MathBox.ofText_inv _
        · exact ih (fun c' hc' => h c' (List.mem_cons_of_mem _ hc')) b hb3

theorem create_multi_line_brace_inv (content : MathBox) (hc : content.Inv) :
    (create_multi_line_brace content).Inv := by
  unfold create_multi_line_brace
  dsimp only
  refine copy_cells_inv _ _ _ _ _ ?_
  have hbase : (MathBox.create_empty (content.width + 2) content.height
      content.baseline).Inv :=
    MathBox.create_empty_inv _ _ _ hc.1 hc.2.1
  split
  · exact MathBox.set_char_inv _ _ _ hbase
  · split
    · exact MathBox.set_char_inv _ _ _ (MathBox.set_char_inv _ _ _ hbase)
    · split
      · exact MathBox.set_char_inv _ _ _ (MathBox.set_char_inv _ _ _
          (MathBox.set_char_inv _ _ _ hbase))
      · refine MathBox.set_char_inv _ _ _ (foldl_inv _ _ (fun b a hb => ?_) _
          (MathBox.set_char_inv _ _ _ hbase))
        split
        · exact MathBox.set_char_inv _ _ _ hb
        · exact MathBox.set_char_inv _ _ _ hb

theorem create_multi_line_delimiters_inv (content : MathBox)
    (od cd : String) (hc : content.Inv) :
    (create_multi_line_delimiters content od cd).Inv := by
  unfold create_multi_line_delimiters
  dsimp only
  have hbase : (MathBox.create_empty (content.width + 2) content.height
      content.baseline).Inv :=
    MathBox.create_empty_inv _ _ _ hc.1 hc.2.1
  split
  · split
    · refine MathBox.set_char_inv _ _ _ (MathBox.set_char_inv _ _ _ ?_)
      refine copy_cells_inv _ _ _ _ _ ?_
      split
      · exact MathBox.set_char_inv _ _ _ (MathBox.set_char_inv _ _ _ hbase)
      · split
        · exact MathBox.set_char_inv _ _ _ (MathBox.set_char_inv _ _ _ hbase)
        · exact hbase
    · refine MathBox.set_char_inv _ _ _ (foldl_inv _ _
        (fun b a hb => MathBox.set_char_inv _ _ _ hb) _
        (MathBox.set_char_inv _ _ _ ?_))
      refine copy_cells_inv _ _ _ _ _ ?_
      split
      · exact MathBox.set_char_inv _ _ _ (foldl_inv _ _
          (fun b a hb => MathBox.set_char_inv _ _ _ hb) _
          (MathBox.set_char_inv _ _ _ hbase))
      · split
        · exact MathBox.set_char_inv _ _ _ (foldl_inv _ _
            (fun b a hb => MathBox.set_char_inv _ _ _ hb) _
            (MathBox.set_char_inv _ _ _ hbase))
        · exact hbase
  · split
    · split
      · refine MathBox.set_char_inv _ _ _ (MathBox.set_char_inv _ _ _ ?_)
        refine copy_cells_inv _ _ _ _ _ ?_
        split
        · exact MathBox.set_char_inv _ _ _ (MathBox.set_char_inv _ _ _ hbase)
        · split
          · exact MathBox.set_char_inv _ _ _ (MathBox.set_char_inv _ _ _ hbase)
          · exact hbase
      · refine MathBox.set_char_inv _ _ _ (foldl_inv _ _
          (fun b a hb => MathBox.set_char_inv _ _ _ hb) _
          (MathBox.set_char_inv _ _ _ ?_))
        refine copy_cells_inv _ _ _ _ _ ?_
        split
        · exact MathBox.set_char_inv _ _ _ (foldl_inv _ _
            (fun b a hb => MathBox.set_char_inv _ _ _ hb) _
            (MathBox.set_char_inv _ _ _ hbase))
        · split
          · exact MathBox.set_char_inv _ _ _ (foldl_inv _ _
              (fun b a hb => MathBox.set_char_inv _ _ _ hb) _
              (MathBox.set_char_inv _ _ _ hbase))
          · exact hbase
    · -- no recognised closing delimiter: the content copy over the opener
      refine copy_cells_inv _ _ _ _ _ ?_
      split
      · split
        · exact MathBox.set_char_inv _ _ _ (MathBox.set_char_inv _ _ _ hbase)
        · exact MathBox.set_char_inv _ _ _ (foldl_inv _ _
            (fun b a hb => MathBox.set_char_inv _ _ _ hb) _
            (MathBox.set_char_inv _ _ _ hbase))
      · split
        · split
          · exact MathBox.set_char_inv _ _ _ (MathBox.set_char_inv _ _ _ hbase)
          · exact MathBox.set_char_inv _ _ _ (foldl_inv _ _
              (fun b a hb => MathBox.set_char_inv _ _ _ hb) _
              (MathBox.set_char_inv _ _ _ hbase))
        · exact hbase

theorem fenced_finish_inv (cb : MathBox) (od cd : String) (hc : cb.Inv) :
    (fenced_finish cb od cd).Inv := by
  unfold fenced_finish
  split
  · exact create_multi_line_brace_inv _ hc
  · split
    · exact MathBox.ofText_inv _
    · exact create_multi_line_delimiters_inv _ _ _ hc

/-! ## Size of element trees and the renderer invariant -/

theorem Elem.size_pos (e : Elem) : 0 < e.size := by
  cases e
  rw [Elem.size]
  omega

theorem Elem.sizeList_mem {c : Elem} {l : List Elem} (h : c ∈ l) :
    c.size ≤ Elem.sizeList l := by
  induction l with
  | nil => cases h
  | cons a t ih =>
    rw [Elem.sizeList]
    rcases List.mem_cons.mp h with rfl | h'
    · omega
    · have := ih h'
      omega

theorem Elem.size_lt {c : Elem} {tag : String} {attrs : List (String × String)}
    {text tail : Option String} {children : List Elem} (h : c ∈ children) :
    c.size < (Elem.mk tag attrs text tail children).size := by
  rw [Elem.size]
  have := Elem.sizeList_mem h
  omega

theorem strip_text_boxes_inv (t : Option String) :
    ∀ b ∈ strip_text_boxes t, b.Inv := by
  intro b hb
  rcases t with _ | s
  · cases hb
  · simp only [strip_text_boxes] at hb
    split at hb
    · rw [List.mem_singleton] at hb
      subst hb
      exact MathBox.ofText_inv _
    · cases hb

theorem process_boxes_inv (u : Bool) (l : List Elem)
    (hp : ∀ c ∈ l, (process_element u c).Inv) :
    ∀ b ∈ process_boxes u l, b.Inv := by
  induction l with
  | nil => intro b hb; cases hb
  | cons c rest ih =>
    intro b hb
    rw [process_boxes] at hb
    rcases List.mem_cons.mp hb with rfl | hb'
    · exact hp c (List.mem_cons_self ..)
    · exact ih (fun c' hc' => hp c' (List.mem_cons_of_mem _ hc')) b hb'

theorem mrow_boxes_inv (u : Bool) (prev : Option String) (l : List Elem)
    (hp : ∀ c ∈ l, (process_element u c).Inv) :
    ∀ b ∈ mrow_boxes u prev l, b.Inv := by
  induction l generalizing prev with
  | nil => intro b hb; cases hb
  | cons c rest ih =>
    intro b hb
    rw [mrow_boxes] at hb
    rcases List.mem_append.mp hb with hb1 | hb4
    · rcases List.mem_append.mp hb1 with hb2 | ht
      · rcases List.mem_append.mp hb2 with hs | ho
        · split at hs
          · rw [List.mem_singleton] at hs
            subst hs
            exact MathBox.ofText_inv _
          · cases hs
        · split at ho
          · rw [List.mem_singleton] at ho
            subst ho
            exact hp c (List.mem_cons_self ..)
          · cases ho
      · exact strip_text_boxes_inv _ b ht
    · exact ih _ (fun c' hc' => hp c' (List.mem_cons_of_mem _ hc')) b hb4

theorem fenced_boxes_inv (u : Bool) (seps : String) (l : List Elem)
    (hp : ∀ c ∈ l, (process_element u c).Inv) :
    ∀ b ∈ fenced_boxes u seps l, b.Inv := by
  induction l with
  | nil => intro b hb; cases hb
  | cons c rest ih =>
    intro b hb
    rw [fenced_boxes] at hb
    rcases List.mem_append.mp hb with hb1 | hb2
    · split at hb1
      · rcases List.mem_cons.mp hb1 with rfl | hb3
        · exact hp c (List.mem_cons_self ..)
        · split at hb3
          · rw [List.mem_singleton] at hb3
            subst hb3
            exact MathBox.ofText_inv _
          · cases hb3
      · cases hb1
    · exact ih (fun c' hc' => hp c' (List.mem_cons_of_mem _ hc')) b hb2

theorem table_rows_inv (u : Bool) (l : List Elem)
    (hp : ∀ c ∈ l, (process_element u c).Inv) :
    ∀ b ∈ table_rows u l, b.Inv := by
  induction l with
  | nil => intro b hb; cases hb
  | cons c rest ih =>
    intro b hb
    rw [table_rows] at hb
    split at hb
    · rcases List.mem_cons.mp hb with rfl | hb'
      · exact hp c (List.mem_cons_self ..)
      · exact ih (fun c' hc' => hp c' (List.mem_cons_of_mem _ hc')) b hb'
    · exact ih (fun c' hc' => hp c' (List.mem_cons_of_mem _ hc')) b hb

theorem table_cells_inv (u : Bool) (l : List Elem)
    (hp : ∀ c ∈ l, (process_element u c).Inv) :
    ∀ b ∈ table_cells u l, b.Inv := by
  induction l with
  | nil => intro b hb; cases hb
  | cons c rest ih =>
    intro b hb
    rw [table_cells] at hb
    split at hb
    · rcases List.mem_cons.mp hb with rfl | hb'
      · exact hp c (List.mem_cons_self ..)
      · exact ih (fun c' hc' => hp c' (List.mem_cons_of_mem _ hc')) b hb'
    · exact ih (fun c' hc' => hp c' (List.mem_cons_of_mem _ hc')) b hb

theorem nonempty_boxes_inv (u : Bool) (l : List Elem)
    (hp : ∀ c ∈ l, (process_element u c).Inv) :
    ∀ b ∈ nonempty_boxes u l, b.Inv := by
  induction l with
  | nil => intro b hb; cases hb
  | cons c rest ih =>
    intro b hb
    rw [nonempty_boxes] at hb
    rcases List.mem_append.mp hb with hb1 | hb2
    · split at hb1
      · rw [List.mem_singleton] at hb1
        subst hb1
        exact hp c (List.mem_cons_self ..)
      · cases hb1
    · exact ih (fun c' hc' => hp c' (List.mem_cons_of_mem _ hc')) b hb2

theorem concat_or_empty_inv (boxes : List MathBox)
    (h : ∀ b ∈ boxes, b.Inv) : (concat_or_empty boxes).Inv := by
  unfold concat_or_empty
  split
  · exact MathBox.ofText_inv _
  · exact horizontal_concat_inv _ h

theorem process_mo_inv (attrs : List (String × String)) (text : Option String) :
    (process_mo attrs text).Inv := by
  unfold process_mo
  dsimp only
  split
  · exact MathBox.ofText_inv _
  · split
    · exact MathBox.ofText_inv _
    · split
      · exact MathBox.ofText_inv _
      · exact MathBox.ofText_inv _

theorem table_finish_inv (rows : List MathBox) (scan : Bool)
    (h : ∀ r ∈ rows, r.Inv) : (table_finish rows scan).Inv := by
  unfold table_finish
  split
  · exact MathBox.ofText_inv _
  · rename_i hne
    refine table_layout_inv _ _ ?_ h
    intro hnil
    rw [hnil] at hne
    exact hne rfl

theorem table_row_finish_inv (cells : List MathBox)
    (h : ∀ c ∈ cells, c.Inv) : (table_row_finish cells).Inv := by
  unfold table_row_finish
  split
  · exact MathBox.ofText_inv _
  · exact horizontal_concat_inv _ (table_row_spacing_inv _ h)

theorem table_cell_finish_inv (boxes : List MathBox) (text : Option String)
    (h : ∀ b ∈ boxes, b.Inv) : (table_cell_finish boxes text).Inv := by
  unfold table_cell_finish
  split
  · exact MathBox.ofText_inv _
  · exact horizontal_concat_inv _ h

theorem process_math_inv (u : Bool) (text : Option String) (children : List Elem)
    (hchild : ∀ c ∈ children, (process_element u c).Inv) :
    (process_math u text children).Inv := by
  cases children with
  | nil => rw [process_math]; exact MathBox.ofText_inv _
  | cons c rest => rw [process_math]; exact hchild _ (by simp)

theorem process_mfrac_inv (u : Bool) (attrs : List (String × String))
    (children : List Elem)
    (hchild : ∀ c ∈ children, (process_element u c).Inv) :
    (process_mfrac u attrs children).Inv := by
  rcases children with _ | ⟨n, _ | ⟨d, _ | ⟨x, rest⟩⟩⟩ <;>
    simp only [process_mfrac]
  · exact MathBox.ofText_inv _
  · exact MathBox.ofText_inv _
  · exact fraction_layout_inv _ _ _ (hchild _ (by simp)) (hchild _ (by simp))
  · exact MathBox.ofText_inv _

theorem process_msub_inv (u : Bool) (children : List Elem)
    (hchild : ∀ c ∈ children, (process_element u c).Inv) :
    (process_msub u children).Inv := by
  rcases children with _ | ⟨b, _ | ⟨s, _ | ⟨x, rest⟩⟩⟩ <;>
    simp only [process_msub]
  · exact MathBox.ofText_inv _
  · exact MathBox.ofText_inv _
  · exact subscript_layout_inv _ _ _ (hchild _ (by simp))
  · exact MathBox.ofText_inv _

theorem process_msup_inv (u : Bool) (children : List Elem)
    (hchild : ∀ c ∈ children, (process_element u c).Inv) :
    (process_msup u children).Inv := by
  rcases children with _ | ⟨b, _ | ⟨s, _ | ⟨x, rest⟩⟩⟩ <;>
    simp only [process_msup]
  · exact MathBox.ofText_inv _
  · exact MathBox.ofText_inv _
  · exact superscript_layout_inv _ _ _ (hchild _ (by simp))
  · exact MathBox.ofText_inv _

theorem process_msubsup_inv (u : Bool) (children : List Elem)
    (hchild : ∀ c ∈ children, (process_element u c).Inv) :
    (process_msubsup u children).Inv := by
  rcases children with _ | ⟨b, _ | ⟨s, _ | ⟨p, _ | ⟨x, rest⟩⟩⟩⟩ <;>
    simp only [process_msubsup]
  · exact MathBox.ofText_inv _
  · exact MathBox.ofText_inv _
  · exact MathBox.ofText_inv _
  · exact subsup_layout_inv _ _ _ _ (hchild _ (by simp))
  · exact MathBox.ofText_inv _

theorem process_munder_inv (u : Bool) (children : List Elem)
    (hchild : ∀ c ∈ children, (process_element u c).Inv) :
    (process_munder u children).Inv := by
  rcases children with _ | ⟨b, _ | ⟨un, _ | ⟨x, rest⟩⟩⟩ <;>
    simp only [process_munder]
  · exact MathBox.ofText_inv _
  · exact MathBox.ofText_inv _
  · exact under_layout_inv _ _ _ (hchild _ (by simp))
  · exact MathBox.ofText_inv _

theorem process_munderover_inv (u : Bool) (children : List Elem)
    (hchild : ∀ c ∈ children, (process_element u c).Inv) :
    (process_munderover u children).Inv := by
  rcases children with _ | ⟨b, _ | ⟨un, _ | ⟨ov, _ | ⟨x, rest⟩⟩⟩⟩ <;>
    simp only [process_munderover]
  · exact MathBox.ofText_inv _
  · exact MathBox.ofText_inv _
  · exact MathBox.ofText_inv _
  · exact underover_layout_inv _ _ _ _ (hchild _ (by simp))
  · exact MathBox.ofText_inv _

theorem process_msqrt_inv (u : Bool) (children : List Elem)
    (hchild : ∀ c ∈ children, (process_element u c).Inv) :
    (process_msqrt u children).Inv := by
  rcases children with _ | ⟨c1, _ | ⟨c2, cs⟩⟩ <;> simp only [process_msqrt]
  · exact MathBox.ofText_inv _
  · exact square_root_layout_inv _ (hchild _ (by simp))
  · refine square_root_layout_inv _ (horizontal_concat_inv _ ?_)
    intro b hb
    rcases List.mem_cons.mp hb with rfl | hb2
    · exact hchild _ (by simp)
    · rcases List.mem_cons.mp hb2 with rfl | hb3
      · exact hchild _ (by simp)
      · refine process_boxes_inv u cs (fun c hc => hchild _ ?_) b hb3
        simp [hc]

theorem process_mroot_inv (u : Bool) (children : List Elem)
    (hchild : ∀ c ∈ children, (process_element u c).Inv) :
    (process_mroot u children).Inv := by
  rcases children with _ | ⟨r, _ | ⟨i, _ | ⟨x, rest⟩⟩⟩ <;>
    simp only [process_mroot]
  · exact MathBox.ofText_inv _
  · exact MathBox.ofText_inv _
  · exact nth_root_layout_inv _ _ _ (hchild _ (by simp))
  · exact MathBox.ofText_inv _

theorem process_default_inv (u : Bool) (text : Option String)
    (children : List Elem)
    (hchild : ∀ c ∈ children, (process_element u c).Inv) :
    (process_default u text children).Inv := by
  rcases children with _ | ⟨c, cs⟩ <;> simp only [process_default]
  · exact MathBox.ofText_inv _
  · refine horizontal_concat_inv _ ?_
    intro b hb
    rcases List.mem_cons.mp hb with rfl | hb2
    · exact hchild _ (by simp)
    · refine process_boxes_inv u cs (fun c' hc' => hchild _ ?_) b hb2
      simp [hc']

/-- Every box produced by the renderer satisfies the structural
invariant: positive height, baseline strictly inside the grid, and a
content grid of exactly `height` rows of `width` columns. -/
theorem process_element_inv (u : Bool) (e : Elem) : (process_element u e).Inv := by
  suffices h : ∀ (n : Nat) (e : Elem), e.size ≤ n → (process_element u e).Inv by
    exact h e.size e le_rfl
  intro n
  induction n with
  | zero =>
    intro e he
    have := Elem.size_pos e
    omega
  | succ m ih =>
    intro e he
    obtain ⟨tag, attrs, text, tail, children⟩ := e
    have hchild : ∀ c ∈ children, (process_element u c).Inv := by
      intro c hc
      refine ih c ?_
      have h1 := @Elem.size_lt c tag attrs text tail children hc
      omega
    rw [process_element]
    try dsimp only
    by_cases hc0 : split_tag tag = "math"
    · rw [if_pos hc0]
      exact process_math_inv u text children hchild
    · rw [if_neg hc0]
      by_cases hc1 : split_tag tag = "mrow"
      · rw [if_pos hc1]
        refine concat_or_empty_inv _ (fun b hb => ?_)
        rcases List.mem_append.mp hb with hm1 | hm2
        · exact strip_text_boxes_inv _ b hm1
        · exact mrow_boxes_inv u none children hchild b hm2
      · rw [if_neg hc1]
        by_cases hc2 : split_tag tag = "mi"
        · rw [if_pos hc2]
          exact MathBox.ofText_inv _
        · rw [if_neg hc2]
          by_cases hc3 : split_tag tag = "mo"
          · rw [if_pos hc3]
            exact process_mo_inv attrs text
          · rw [if_neg hc3]
            by_cases hc4 : split_tag tag = "mn"
            · rw [if_pos hc4]
              exact MathBox.ofText_inv _
            · rw [if_neg hc4]
              by_cases hc5 : split_tag tag = "mtext"
              · rw [if_pos hc5]
                exact MathBox.ofText_inv _
              · rw [if_neg hc5]
                by_cases hc6 : split_tag tag = "mspace"
                · rw [if_pos hc6]
                  exact MathBox.ofText_inv _
                · rw [if_neg hc6]
                  by_cases hc7 : split_tag tag = "mfrac"
                  · rw [if_pos hc7]
                    exact process_mfrac_inv u attrs children hchild
                  · rw [if_neg hc7]
                    by_cases hc8 : split_tag tag = "msub"
                    · rw [if_pos hc8]
                      exact process_msub_inv u children hchild
                    · rw [if_neg hc8]
                      by_cases hc9 : split_tag tag = "msup"
                      · rw [if_pos hc9]
                        exact process_msup_inv u children hchild
                      · rw [if_neg hc9]
                        by_cases hc10 : split_tag tag = "msubsup"
                        · rw [if_pos hc10]
                          exact process_msubsup_inv u children hchild
                        · rw [if_neg hc10]
                          by_cases hc11 : split_tag tag = "munder"
                          · rw [if_pos hc11]
                            exact process_munder_inv u children hchild
                          · rw [if_neg hc11]
                            by_cases hc12 : split_tag tag = "munderover"
                            · rw [if_pos hc12]
                              exact process_munderover_inv u children hchild
                            · rw [if_neg hc12]
                              by_cases hc13 : split_tag tag = "msqrt"
                              · rw [if_pos hc13]
                                exact process_msqrt_inv u children hchild
                              · rw [if_neg hc13]
                                by_cases hc14 : split_tag tag = "mroot"
                                · rw [if_pos hc14]
                                  exact process_mroot_inv u children hchild
                                · rw [if_neg hc14]
                                  by_cases hc15 : split_tag tag = "mtable"
                                  · rw [if_pos hc15]
                                    exact table_finish_inv _ _ (table_rows_inv u _ hchild)
                                  · rw [if_neg hc15]
                                    by_cases hc16 : split_tag tag = "mtr"
                                    · rw [if_pos hc16]
                                      exact table_row_finish_inv _ (table_cells_inv u _ hchild)
                                    · rw [if_neg hc16]
                                      by_cases hc17 : split_tag tag = "mtd"
                                      · rw [if_pos hc17]
                                        exact table_cell_finish_inv _ _ (nonempty_boxes_inv u _ hchild)
                                      · rw [if_neg hc17]
                                        by_cases hc18 : split_tag tag = "mfenced"
                                        · rw [if_pos hc18]
                                          exact fenced_finish_inv _ _ _
                                            (concat_or_empty_inv _ (fenced_boxes_inv u _ _ hchild))
                                        · rw [if_neg hc18]
                                          exact process_default_inv u text children hchild

/-! ## Frame lemmas for the under/over and fraction layouts -/

theorem under_layout_width (base under : MathBox) (s : Bool) :
    (under_layout base under s).width =
      if s then max (max base.width under.width) 2
      else max base.width under.width := by
  unfold under_layout
  dsimp only
  rw [copy_cells_width, copy_cells_width]
  cases s <;> rfl

theorem under_layout_baseline (base under : MathBox) (s : Bool) :
    (under_layout base under s).baseline = base.baseline := by
  unfold under_layout
  dsimp only
  rw [copy_cells_baseline, copy_cells_baseline]
  rfl

theorem underover_layout_width (base under over : MathBox) (s : Bool) :
    (underover_layout base under over s).width =
      if s then max (max base.width (max under.width over.width)) 2
      else max base.width (max under.width over.width) := by
  unfold underover_layout
  dsimp only
  rw [copy_cells_width, copy_cells_width, copy_cells_width]
  cases s <;> rfl

theorem underover_layout_baseline (base under over : MathBox) (s : Bool) :
    (underover_layout base under over s).baseline =
      over.height + base.baseline := by
  unfold underover_layout
  dsimp only
  rw [copy_cells_baseline, copy_cells_baseline, copy_cells_baseline]
  rfl

theorem fraction_layout_width (n d : MathBox) :
    (fraction_layout false n d).width = max n.width d.width := by
  unfold fraction_layout
  rw [if_neg (by simp)]
  dsimp only
  rw [copy_cells_width, foldl_width_eq _ _
    (fun b a => MathBox.set_char_width b _ _ _), copy_cells_width]
  rfl

theorem fraction_layout_height (n d : MathBox) :
    (fraction_layout false n d).height = n.height + 1 + d.height := by
  unfold fraction_layout
  rw [if_neg (by simp)]
  dsimp only
  rw [copy_cells_height, foldl_height_eq _ _
    (fun b a => MathBox.set_char_height b _ _ _), copy_cells_height]
  rfl

theorem fraction_layout_baseline (n d : MathBox) :
    (fraction_layout false n d).baseline = n.height := by
  unfold fraction_layout
  rw [if_neg (by simp)]
  dsimp only
  rw [copy_cells_baseline, foldl_baseline_eq _ _
    (fun b a => MathBox.set_char_baseline b _ _ _), copy_cells_baseline]
  rfl

/-- What the fraction-bar loop wrote: the rule character everywhere on the
bar row within bounds, everything else untouched. -/
theorem bar_fold_get (w bl : Nat) (r : MathBox) (hS : r.Shape) (X Y : Nat) :
    ((List.range w).foldl
        (fun acc (x : Nat) => acc.set_char (↑x) (↑bl) '─') r).get_char (↑X) (↑Y) =
      if X < w ∧ Y = bl ∧ X < r.width ∧ Y < r.height then '─'
      else r.get_char (↑X) (↑Y) := by
  induction w with
  | zero =>
    rw [if_neg (by omega)]
    rfl
  | succ m ih =>
    rw [List.range_succ, List.foldl_append, List.foldl_cons, List.foldl_nil]
    set A := (List.range m).foldl
      (fun acc (x : Nat) => acc.set_char (↑x) (↑bl) '─') r with hA
    have hAS : A.Shape :=
      foldl_shape _ _ (fun b a hb => MathBox.set_char_shape _ _ _ hb) r hS
    have hAw : A.width = r.width :=
      foldl_width_eq _ _ (fun b a => MathBox.set_char_width b _ _ _) r
    have hAh : A.height = r.height :=
      foldl_height_eq _ _ (fun b a => MathBox.set_char_height b _ _ _) r
    rw [MathBox.get_set_char hAS, hAw, hAh] at *
    by_cases hXm : X = m ∧ Y = bl ∧ X < r.width ∧ Y < r.height
    · obtain ⟨x1, x2, x3, x4⟩ := hXm
      rw [if_pos ⟨by push_cast; omega, by push_cast; omega, by positivity,
        by rw [hAh]; push_cast; omega, by positivity, by rw [hAw]; push_cast; omega⟩,
        if_pos ⟨by omega, x2, x3, x4⟩]
    · rw [if_neg ?hno]
      case hno =>
        rw [hAh, hAw]
        rintro ⟨e1, e2, _, e4, _, e6⟩
        exact hXm ⟨by omega, by omega, by omega, by omega⟩
      rw [ih]
      by_cases hc : X < m ∧ Y = bl ∧ X < r.width ∧ Y < r.height
      · rw [if_pos hc, if_pos ⟨by omega, hc.2⟩]
      · rw [if_neg hc, if_neg ?hno2]
        case hno2 =>
          rintro ⟨f1, f2, f3, f4⟩
          rcases Nat.lt_or_ge X m with hlt | hge
          · exact hc ⟨hlt, f2, f3, f4⟩
          · exact hXm ⟨by omega, f2, f3, f4⟩

theorem MathBox.create_empty_width (w h bl : Nat) :
    (MathBox.create_empty w h bl).width = w := rfl

theorem MathBox.create_empty_height (w h bl : Nat) :
    (MathBox.create_empty w h bl).height = h := rfl

theorem MathBox.create_empty_baseline (w h bl : Nat) :
    (MathBox.create_empty w h bl).baseline = bl := rfl

/-- The visible fraction bar: every column of the baseline row carries the
rule character. -/
theorem fraction_layout_bar (n d : MathBox) (x : Nat)
    (hx : x < max n.width d.width) :
    (fraction_layout false n d).get_char (↑x) (↑n.height) = '─' := by
  unfold fraction_layout
  rw [if_neg (by simp)]
  dsimp only
  set W := max n.width d.width with hW
  set r0 := MathBox.create_empty W (n.height + 1 + d.height) n.height with hr0
  set r1 := copy_cells n ((W - n.width) / 2) 0 (fun _ _ _ => true) r0 with hr1
  set r2 := (List.range W).foldl
    (fun acc (x : Nat) => acc.set_char (↑x) (↑n.height) '─') r1 with hr2
  have hS0 : r0.Shape := by rw [hr0]; exact MathBox.create_empty_shape _ _ _
  have hS1 : r1.Shape := by rw [hr1]; exact copy_cells_shape _ _ _ _ _ hS0
  have hw1 : r1.width = W := by
    rw [hr1, copy_cells_width, hr0, MathBox.create_empty_width]
  have hh1 : r1.height = n.height + 1 + d.height := by
    rw [hr1, copy_cells_height, hr0, MathBox.create_empty_height]
  have hS2 : r2.Shape := by
    rw [hr2]
    exact foldl_shape _ _ (fun b a hb => MathBox.set_char_shape _ _ _ hb) _ hS1
  rw [copy_cells_get_outside d ((W - d.width) / 2) (n.height + 1)
    (fun _ _ _ => true) r2 hS2 x n.height (by omega)]
  rw [hr2, bar_fold_get _ _ _ hS1,
    if_pos ⟨hx, rfl, by rw [hw1]; exact hx, by rw [hh1]; omega⟩]

/-- The numerator lands centred (floor offset) on the rows above the bar. -/
theorem fraction_layout_num (n d : MathBox) (x y : Nat)
    (hx : x < n.width) (hy : y < n.height) :
    (fraction_layout false n d).get_char
        (↑(x + (max n.width d.width - n.width) / 2)) (↑y)
      = n.get_char (↑x) (↑y) := by
  unfold fraction_layout
  rw [if_neg (by simp)]
  dsimp only
  set W := max n.width d.width with hW
  set r0 := MathBox.create_empty W (n.height + 1 + d.height) n.height with hr0
  set r1 := copy_cells n ((W - n.width) / 2) 0 (fun _ _ _ => true) r0 with hr1
  set r2 := (List.range W).foldl
    (fun acc (x : Nat) => acc.set_char (↑x) (↑n.height) '─') r1 with hr2
  have hS0 : r0.Shape := by rw [hr0]; exact MathBox.create_empty_shape _ _ _
  have hS1 : r1.Shape := by rw [hr1]; exact copy_cells_shape _ _ _ _ _ hS0
  have hS2 : r2.Shape := by
    rw [hr2]
    exact foldl_shape _ _ (fun b a hb => MathBox.set_char_shape _ _ _ hb) _ hS1
  have hnW : n.width ≤ W := le_max_left _ _
  rw [copy_cells_get_outside d ((W - d.width) / 2) (n.height + 1)
    (fun _ _ _ => true) r2 hS2 (x + (W - n.width) / 2) y (by omega)]
  rw [hr2, bar_fold_get _ _ _ hS1, if_neg (by rintro ⟨-, e, -, -⟩; omega)]
  rw [hr1, copy_cells_get n ((W - n.width) / 2) 0 _ r0 hS0 (x + (W - n.width) / 2) y]
  rw [if_pos ⟨by omega, by omega, by omega, by omega, rfl,
    by rw [hr0, MathBox.create_empty_width]; omega,
    by rw [hr0, MathBox.create_empty_height]; omega⟩]
  congr 2 <;> omega

/-- The denominator lands centred (floor offset) on the rows below the
bar. -/
theorem fraction_layout_den (n d : MathBox) (x y : Nat)
    (hx : x < d.width) (hy : y < d.height) :
    (fraction_layout false n d).get_char
        (↑(x + (max n.width d.width - d.width) / 2)) (↑(n.height + 1 + y))
      = d.get_char (↑x) (↑y) := by
  unfold fraction_layout
  rw [if_neg (by simp)]
  dsimp only
  set W := max n.width d.width with hW
  set r0 := MathBox.create_empty W (n.height + 1 + d.height) n.height with hr0
  set r1 := copy_cells n ((W - n.width) / 2) 0 (fun _ _ _ => true) r0 with hr1
  set r2 := (List.range W).foldl
    (fun acc (x : Nat) => acc.set_char (↑x) (↑n.height) '─') r1 with hr2
  have hS0 : r0.Shape := by rw [hr0]; exact MathBox.create_empty_shape _ _ _
  have hS1 : r1.Shape := by rw [hr1]; exact copy_cells_shape _ _ _ _ _ hS0
  have hw2 : r2.width = W := by
    rw [hr2, foldl_width_eq _ _ (fun b a => MathBox.set_char_width b _ _ _),
      hr1, copy_cells_width, hr0, MathBox.create_empty_width]
  have hh2 : r2.height = n.height + 1 + d.height := by
    rw [hr2, foldl_height_eq _ _ (fun b a => MathBox.set_char_height b _ _ _),
      hr1, copy_cells_height, hr0, MathBox.create_empty_height]
  have hS2 : r2.Shape := by
    rw [hr2]
    exact foldl_shape _ _ (fun b a hb => MathBox.set_char_shape _ _ _ hb) _ hS1
  have hdW : d.width ≤ W := le_max_right _ _
  rw [copy_cells_get d ((W - d.width) / 2) (n.height + 1)
    (fun _ _ _ => true) r2 hS2 (x + (W - d.width) / 2) (n.height + 1 + y)]
  rw [if_pos ⟨by omega, by omega, by omega, by omega, rfl,
    by rw [hw2]; omega, by rw [hh2]; omega⟩]
  congr 2 <;> omega

/-! ## Unfolding equations of the dispatcher at literal tags -/

theorem process_element_mfrac (u : Bool) (attrs : List (String × String))
    (text tail : Option String) (children : List Elem) :
    process_element u (.mk "mfrac" attrs text tail children) =
      process_mfrac u attrs children := by
  rw [process_element]
  try dsimp only
  rw [if_neg (by decide), if_neg (by decide), if_neg (by decide), if_neg (by decide), if_neg (by decide), if_neg (by decide), if_neg (by decide), if_pos (by decide)]

theorem process_element_msub (u : Bool) (attrs : List (String × String))
    (text tail : Option String) (children : List Elem) :
    process_element u (.mk "msub" attrs text tail children) =
      process_msub u children := by
  rw [process_element]
  try dsimp only
  rw [if_neg (by decide), if_neg (by decide), if_neg (by decide), if_neg (by decide), if_neg (by decide), if_neg (by decide), if_neg (by decide), if_neg (by decide), if_pos (by decide)]

theorem process_element_msup (u : Bool) (attrs : List (String × String))
    (text tail : Option String) (children : List Elem) :
    process_element u (.mk "msup" attrs text tail children) =
      process_msup u children := by
  rw [process_element]
  try dsimp only
  rw [if_neg (by decide), if_neg (by decide), if_neg (by decide), if_neg (by decide), if_neg (by decide), if_neg (by decide), if_neg (by decide), if_neg (by decide), if_neg (by decide), if_pos (by decide)]

theorem process_element_msubsup (u : Bool) (attrs : List (String × String))
    (text tail : Option String) (children : List Elem) :
    process_element u (.mk "msubsup" attrs text tail children) =
      process_msubsup u children := by
  rw [process_element]
  try dsimp only
  rw [if_neg (by decide), if_neg (by decide), if_neg (by decide), if_neg (by decide), if_neg (by decide), if_neg (by decide), if_neg (by decide), if_neg (by decide), if_neg (by decide), if_neg (by decide), if_pos (by decide)]

theorem process_element_munder (u : Bool) (attrs : List (String × String))
    (text tail : Option String) (children : List Elem) :
    process_element u (.mk "munder" attrs text tail children) =
      process_munder u children := by
  rw [process_element]
  try dsimp only
  rw [if_neg (by decide), if_neg (by decide), if_neg (by decide), if_neg (by decide), if_neg (by decide), if_neg (by decide), if_neg (by decide), if_neg (by decide), if_neg (by decide), if_neg (by decide), if_neg (by decide), if_pos (by decide)]

theorem process_element_munderover (u : Bool) (attrs : List (String × String))
    (text tail : Option String) (children : List Elem) :
    process_element u (.mk "munderover" attrs text tail children) =
      process_munderover u children := by
  rw [process_element]
  try dsimp only
  rw [if_neg (by decide), if_neg (by decide), if_neg (by decide), if_neg (by decide), if_neg (by decide), if_neg (by decide), if_neg (by decide), if_neg (by decide), if_neg (by decide), if_neg (by decide), if_neg (by decide), if_neg (by decide), if_pos (by decide)]

theorem process_element_mroot (u : Bool) (attrs : List (String × String))
    (text tail : Option String) (children : List Elem) :
    process_element u (.mk "mroot" attrs text tail children) =
      process_mroot u children := by
  rw [process_element]
  try dsimp only
  rw [if_neg (by decide), if_neg (by decide), if_neg (by decide), if_neg (by decide), if_neg (by decide), if_neg (by decide), if_neg (by decide), if_neg (by decide), if_neg (by decide), if_neg (by decide), if_neg (by decide), if_neg (by decide), if_neg (by decide), if_neg (by decide), if_pos (by decide)]

theorem process_element_mtable (u : Bool) (attrs : List (String × String))
    (text tail : Option String) (children : List Elem) :
    process_element u (.mk "mtable" attrs text tail children) =
      table_finish (table_rows u children) (has_where_scan children) := by
  rw [process_element]
  try dsimp only
  rw [if_neg (by decide), if_neg (by decide), if_neg (by decide), if_neg (by decide), if_neg (by decide), if_neg (by decide), if_neg (by decide), if_neg (by decide), if_neg (by decide), if_neg (by decide), if_neg (by decide), if_neg (by decide), if_neg (by decide), if_neg (by decide), if_neg (by decide), if_pos (by decide)]

/-! ## Row placement of the table layout -/

theorem MathBox.get_char_baseline_update (b : MathBox) (v : Nat) (x y : Int) :
    ({ b with baseline := v } : MathBox).get_char x y = b.get_char x y := rfl

/-- Row placement only writes at vertical positions at or below the
running offset. -/
theorem table_place_rows_get_lt (rows : List MathBox) (i y0 mw : Nat)
    (hw : Bool) (r : MathBox) (hS : r.Shape) (X Y : Nat) (hY : Y < y0) :
    (table_place_rows rows i y0 mw hw r).get_char (↑X) (↑Y)
      = r.get_char (↑X) (↑Y) := by
  induction rows generalizing i y0 r with
  | nil => rfl
  | cons row rest ih =>
    rw [table_place_rows]
    try dsimp only
    by_cases hcase : hw = true ∧ i = 1
    · rw [if_pos hcase]
      rw [ih (i + 1) (y0 + 1 + row.height) _
        (copy_cells_shape _ _ _ _ _ hS) (by omega)]
      exact copy_cells_get_outside row _ (y0 + 1) _ r hS X Y (by omega)
    · rw [if_neg hcase]
      rw [ih (i + 1) (y0 + row.height) _
        (copy_cells_shape _ _ _ _ _ hS) (by omega)]
      exact copy_cells_get_outside row _ y0 _ r hS X Y (by omega)

/-- When the where-clause gap is active, the continuation starting at row
index 1 leaves the gap row (and everything above it) untouched. -/
theorem table_place_rows_gap (rest : List MathBox) (y0 mw : Nat)
    (r : MathBox) (hS : r.Shape) (X Y : Nat) (hY : Y ≤ y0) :
    (table_place_rows rest 1 y0 mw true r).get_char (↑X) (↑Y)
      = r.get_char (↑X) (↑Y) := by
  cases rest with
  | nil => rfl
  | cons row rest2 =>
    rw [table_place_rows]
    try dsimp only
    rw [if_pos ⟨rfl, rfl⟩]
    rw [table_place_rows_get_lt rest2 2 (y0 + 1 + row.height) mw true _
      (copy_cells_shape _ _ _ _ _ hS) X Y (by omega)]
    exact copy_cells_get_outside row _ (y0 + 1) _ r hS X Y (by omega)

/-- With the where-clause heuristic on, the row just below the first
table row is entirely blank: it is the inserted separator row. -/
theorem table_layout_gap_blank (r0 : MathBox) (rest : List MathBox) (X : Nat) :
    (table_layout (r0 :: rest) true).get_char (↑X) (↑r0.height) = ' ' := by
  unfold table_layout
  try dsimp only
  rw [MathBox.get_char_baseline_update]
  rw [table_place_rows]
  try dsimp only
  rw [if_neg (by rintro ⟨-, h⟩; omega)]
  simp only [Nat.zero_add]
  rw [table_place_rows_gap rest r0.height _ _
    (copy_cells_shape _ _ _ _ _ (MathBox.create_empty_shape _ _ _)) X r0.height
    le_rfl]
  rw [copy_cells_get_outside r0 _ 0 _ _ (MathBox.create_empty_shape _ _ _) X
    r0.height (by omega)]
  exact MathBox.create_empty_get _ _ _ _ _

/-- The height of the finished table: the row heights summed, plus one
for the where-clause separator when it is active. -/
theorem table_layout_height (rows : List MathBox) (hw : Bool) :
    (table_layout rows hw).height = (rows.map (·.height)).sum +
      (if hw = true ∧ 2 ≤ rows.length then 1 else 0) := by
  unfold table_layout
  try dsimp only
  rw [table_place_rows_height, MathBox.create_empty_height]

theorem table_layout_baseline (rows : List MathBox) (hw : Bool) :
    (table_layout rows hw).baseline = ((rows.map (·.height)).sum +
      (if hw = true ∧ 2 ≤ rows.length then 1 else 0)) / 2 := rfl

/-! ## Soundness and completeness of the math-pattern search -/

theorem find_gt_sound (l : List Char) (k : Nat) (h : find_gt l = some k) :
    ∃ a b, l = a ++ '>' :: b ∧ a.length = k ∧ '>' ∉ a := by
  induction l generalizing k with
  | nil => exact absurd h (by simp [find_gt])
  | cons c t ih =>
    rw [find_gt] at h
    by_cases hc : c = '>'
    · rw [if_pos hc] at h
      have h0 := Option.some.inj h
      exact ⟨[], t, by rw [hc, List.nil_append], by simpa using h0, by simp⟩
    · rw [if_neg hc] at h
      cases hft : find_gt t with
      | none => rw [hft] at h; exact absurd h (by simp)
      | some j =>
        rw [hft] at h
        simp only [Option.map_some'] at h
        have hj := Option.some.inj h
        obtain ⟨a, b, hl, hlen, hmem⟩ := ih j hft
        refine ⟨c :: a, b, by rw [hl, List.cons_append], by simp [hlen]; omega, ?_⟩
        simp only [List.mem_cons, not_or]
        exact ⟨fun e => hc e.symm, hmem⟩
  
theorem find_gt_complete (l : List Char) (h : '>' ∈ l) : find_gt l ≠ none := by
  induction l with
  | nil => simp at h
  | cons c t ih =>
    rw [find_gt]
    by_cases hc : c = '>'
    · rw [if_pos hc]; simp
    · rw [if_neg hc]
      have ht : '>' ∈ t := by
        rcases List.mem_cons.mp h with h1 | h2
        · exact absurd h1.symm hc
        · exact h2
      cases hft : find_gt t with
      | none => exact absurd hft (ih ht)
      | some j => simp

theorem find_close_sound (l : List Char) (m : Nat) (h : find_close l = some m) :
    ∃ a b, l = a ++ ("</math>".toList ++ b) ∧ a.length = m := by
  induction l generalizing m with
  | nil => exact absurd h (by simp [find_close])
  | cons c t ih =>
    rw [find_close] at h
    by_cases hp : "</math>".toList.isPrefixOf (c :: t)
    · rw [if_pos hp] at h
      have h0 := Option.some.inj h
      obtain ⟨b, hb⟩ := List.isPrefixOf_iff_prefix.mp hp
      exact ⟨[], b, by rw [List.nil_append, hb], by simpa using h0⟩
    · rw [if_neg hp] at h
      cases hft : find_close t with
      | none => rw [hft] at h; exact absurd h (by simp)
      | some j =>
        rw [hft] at h
        simp only [Option.map_some'] at h
        have hj := Option.some.inj h
        obtain ⟨a, b, hl, hlen⟩ := ih j hft
        exact ⟨c :: a, b, by rw [hl, List.cons_append], by simp [hlen]; omega⟩

theorem find_close_head_match (l : List Char)
    (h : "</math>".toList.isPrefixOf l = true) : find_close l ≠ none := by
  cases l with
  | nil => exact absurd h (by decide)
  | cons c t => rw [find_close, if_pos h]; simp

theorem find_close_complete (a b : List Char) :
    find_close (a ++ ("</math>".toList ++ b)) ≠ none := by
  induction a with
  | nil =>
    refine find_close_head_match _ ?_
    rw [List.nil_append]
    exact List.isPrefixOf_iff_prefix.mpr ⟨b, rfl⟩
  | cons c a2 ih =>
    rw [List.cons_append, find_close]
    by_cases hp : "</math>".toList.isPrefixOf (c :: (a2 ++ ("</math>".toList ++ b)))
    · rw [if_pos hp]; simp
    · rw [if_neg hp]
      cases hfc : find_close (a2 ++ ("</math>".toList ++ b)) with
      | none => exact absurd hfc ih
      | some m => simp

theorem match_math_at_sound (l m : List Char) (h : match_math_at l = some m) :
    (∃ post, l = m ++ post) ∧ IsMathMatch m := by
  unfold match_math_at at h
  by_cases hp : "<math".toList.isPrefixOf l
  case neg => rw [if_neg hp] at h; exact absurd h (by simp)
  rw [if_pos hp] at h
  cases hg : find_gt (l.drop 5) with
  | none => rw [hg] at h; exact absurd h (by simp)
  | some k =>
    rw [hg] at h
    dsimp only at h
    cases hc : find_close ((l.drop 5).drop (k + 1)) with
    | none => rw [hc] at h; exact absurd h (by simp)
    | some mm =>
      rw [hc] at h
      dsimp only at h
      have hm : m = l.take (5 + (k + 1) + mm + 7) := (Option.some.inj h).symm
      obtain ⟨rest5, hl5⟩ := List.isPrefixOf_iff_prefix.mp hp
      have h5 : ("<math".toList).length = 5 := rfl
      have hdrop5 : l.drop 5 = rest5 := by
        rw [← hl5, ← h5, List.drop_left]
      obtain ⟨a, b0, hrest, hak, hagt⟩ := find_gt_sound _ _ hg
      rw [hdrop5] at hrest
      have hdropk : (l.drop 5).drop (k + 1) = b0 := by
        rw [hdrop5, hrest, ← hak,
          show a ++ '>' :: b0 = (a ++ ['>']) ++ b0 by simp,
          show a.length + 1 = (a ++ ['>']).length by simp]
        exact List.drop_left _ _
      obtain ⟨bb, cc, hb0, hbbm⟩ := find_close_sound _ _ (hdropk ▸ hc)
      have hlfull : l =
          ("<math".toList ++ a ++ '>' :: (bb ++ "</math>".toList)) ++ cc := by
        rw [← hl5, hrest, hb0]
        simp
      have hlen : ("<math".toList ++ a ++ '>' :: (bb ++ "</math>".toList)).length
          = 5 + (k + 1) + mm + 7 := by
        simp only [List.length_append, List.length_cons, h5]
        rw [hak, hbbm]
        have h7 : ("</math>".toList).length = 7 := rfl
        rw [h7]
        omega
      have hmfull : m = "<math".toList ++ a ++ '>' :: (bb ++ "</math>".toList) := by
        rw [hm, hlfull, ← hlen, List.take_left]
      refine ⟨⟨cc, ?_⟩, a, bb, ?_, hagt⟩
      · rw [hmfull, hlfull]
      · rw [hmfull, List.append_assoc]

theorem match_math_at_complete (s post : List Char) (h : IsMathMatch s) :
    match_math_at (s ++ post) ≠ none := by
  obtain ⟨a, b, hs, ha⟩ := h
  subst hs
  unfold match_math_at
  have hassoc : ("<math".toList ++ a ++ '>' :: (b ++ "</math>".toList)) ++ post
      = "<math".toList ++ (a ++ '>' :: (b ++ ("</math>".toList ++ post))) := by
    simp
  rw [hassoc]
  have hp : "<math".toList.isPrefixOf
      ("<math".toList ++ (a ++ '>' :: (b ++ ("</math>".toList ++ post)))) :=
    List.isPrefixOf_iff_prefix.mpr ⟨_, rfl⟩
  rw [if_pos hp]
  have h5 : ("<math".toList).length = 5 := rfl
  have hdrop5 : ("<math".toList ++
        (a ++ '>' :: (b ++ ("</math>".toList ++ post)))).drop 5
      = a ++ '>' :: (b ++ ("</math>".toList ++ post)) := by
    rw [← h5, List.drop_left]
  rw [hdrop5]
  have hgt : '>' ∈ a ++ '>' :: (b ++ ("</math>".toList ++ post)) :=
    List.mem_append.mpr (Or.inr (List.mem_cons_self _ _))
  cases hg : find_gt (a ++ '>' :: (b ++ ("</math>".toList ++ post))) with
  | none => exact absurd hg (find_gt_complete _ hgt)
  | some k =>
    dsimp only
    obtain ⟨a2, b2, hrest, hak, hagt2⟩ := find_gt_sound _ _ hg
    have hka : k ≤ a.length := by
      by_contra hgt'
      push_neg at hgt'
      have ha2 : a2 = (a ++ '>' :: (b ++ ("</math>".toList ++ post))).take k := by
        rw [hrest, ← hak, List.take_left]
      have hmem : '>' ∈ a2 := by
        rw [ha2, show k = a.length + (k - a.length) by omega, List.take_append]
        refine List.mem_append.mpr (Or.inr ?_)
        rw [show (k - a.length) = (k - a.length - 1) + 1 by omega,
          List.take_succ_cons]
        exact List.mem_cons_self _ _
      exact hagt2 hmem
    have hdropk : (a ++ '>' :: (b ++ ("</math>".toList ++ post))).drop (k + 1)
        = ((a ++ '>' :: b).drop (k + 1)) ++ ("</math>".toList ++ post) := by
      rw [show a ++ '>' :: (b ++ ("</math>".toList ++ post))
          = (a ++ '>' :: b) ++ ("</math>".toList ++ post) by simp]
      exact List.drop_append_of_le_length (by simp; omega)
    rw [hdropk]
    cases hfc : find_close (((a ++ '>' :: b).drop (k + 1)) ++
        ("</math>".toList ++ post)) with
    | none => exact absurd hfc (find_close_complete _ _)
    | some mm => simp

theorem first_math_match_sound (l m : List Char)
    (h : first_math_match l = some m) :
    (∃ pre post, l = pre ++ m ++ post) ∧ IsMathMatch m := by
  induction l with
  | nil => exact absurd h (by simp [first_math_match])
  | cons c t ih =>
    rw [first_math_match] at h
    cases hat : match_math_at (c :: t) with
    | some m2 =>
      rw [hat] at h
      dsimp only at h
      have hm2 := Option.some.inj h
      subst hm2
      obtain ⟨⟨post, hpost⟩, hmm⟩ := match_math_at_sound _ _ hat
      exact ⟨⟨[], post, by rw [List.nil_append, hpost]⟩, hmm⟩
    | none =>
      rw [hat] at h
      dsimp only at h
      obtain ⟨⟨pre, post, hsplit⟩, hmm⟩ := ih h
      exact ⟨⟨c :: pre, post, by rw [hsplit]; simp⟩, hmm⟩

theorem first_math_match_of_match (l : List Char)
    (hl : match_math_at l ≠ none) : first_math_match l ≠ none := by
  cases l with
  | nil => exact absurd (by decide) hl
  | cons c t =>
    rw [first_math_match]
    cases hat : match_math_at (c :: t) with
    | some m => simp
    | none => exact absurd hat hl

theorem first_math_match_complete (pre mid post : List Char)
    (h : IsMathMatch mid) :
    first_math_match (pre ++ mid ++ post) ≠ none := by
  induction pre with
  | nil =>
    rw [List.nil_append]
    exact first_math_match_of_match _ (match_math_at_complete mid post h)
  | cons c pre2 ih =>
    rw [List.cons_append, List.cons_append, first_math_match]
    cases hat : match_math_at (c :: ((pre2 ++ mid) ++ post)) with
    | some m2 => simp
    | none =>
      dsimp only
      exact ih

/-! ## The claims -/

/-- C2: every box produced by a layout rule of the renderer (the
dispatcher `process_element`, covering leaves, rows, fractions,
sub/superscripts, under/over, roots, tables and fences) and every box
produced by `horizontal_concat` from well-formed boxes satisfies
`baseline < height` whenever `0 < height`, and its content grid has
exactly `height` rows of exactly `width` columns. -/
theorem claim_C2 :
    (∀ (u : Bool) (e : Elem),
      (0 < (process_element u e).height →
        (process_element u e).baseline < (process_element u e).height) ∧
      (process_element u e).content.length = (process_element u e).height ∧
      ∀ r ∈ (process_element u e).content,
        r.length = (process_element u e).width) ∧
    (∀ boxes : List MathBox, (∀ b ∈ boxes, b.Inv) →
      (0 < (horizontal_concat boxes).height →
        (horizontal_concat boxes).baseline < (horizontal_concat boxes).height) ∧
      (horizontal_concat boxes).content.length
        = (horizontal_concat boxes).height ∧
      ∀ r ∈ (horizontal_concat boxes).content,
        r.length = (horizontal_concat boxes).width) := by
  constructor
  · intro u e
    obtain ⟨h1, h2, h3, h4⟩ := process_element_inv u e
    exact ⟨fun _ => h2, h3, h4⟩
  · intro boxes hb
    obtain ⟨h1, h2, h3, h4⟩ := horizontal_concat_inv boxes hb
    exact ⟨fun _ => h2, h3, h4⟩

theorem claim_C2_witness :
    (∀ b ∈ [MathBox.ofText "x"], b.Inv) ∧
    ((0 < (horizontal_concat [MathBox.ofText "x"]).height →
      (horizontal_concat [MathBox.ofText "x"]).baseline
        < (horizontal_concat [MathBox.ofText "x"]).height) ∧
    (horizontal_concat [MathBox.ofText "x"]).content.length
      = (horizontal_concat [MathBox.ofText "x"]).height ∧
    ∀ r ∈ (horizontal_concat [MathBox.ofText "x"]).content,
      r.length = (horizontal_concat [MathBox.ofText "x"]).width) :=
  ⟨by decide, claim_C2.2 [MathBox.ofText "x"] (by decide)⟩

/-- C3 is refuted as stated: concatenating an empty list of boxes gives
the empty box of the implementation, whose height is 1, not 0. -/
theorem claim_C3_counterexample :
    (horizontal_concat []).width = 0 ∧ (horizontal_concat []).height ≠ 0 ∧
    (horizontal_concat []).height = 1 := by decide

/-- C3 (amended): `horizontal_concat` applied to the empty list, or to a
list all of whose boxes are empty (width 0 or height 0), returns the
canonical empty box `MathBox.ofText ""`, which has width 0 and
height 1. -/
theorem claim_C3 (boxes : List MathBox)
    (h : ∀ b ∈ boxes, b.width = 0 ∨ b.height = 0) :
    horizontal_concat boxes = MathBox.ofText "" ∧
    (horizontal_concat boxes).width = 0 ∧
    (horizontal_concat boxes).height = 1 := by
  have hk : kept_boxes boxes = [] := by
    rw [kept_boxes, List.filter_eq_nil_iff]
    intro b hb
    rcases h b hb with h0 | h0 <;> simp [h0]
  have he := horizontal_concat_of_kept_nil _ hk
  rw [he]
  exact ⟨rfl, rfl, rfl⟩

theorem claim_C3_witness :
    (∀ b ∈ [MathBox.ofText ""], b.width = 0 ∨ b.height = 0) ∧
    (horizontal_concat [MathBox.ofText ""] = MathBox.ofText "" ∧
      (horizontal_concat [MathBox.ofText ""]).width = 0 ∧
      (horizontal_concat [MathBox.ofText ""]).height = 1) :=
  ⟨by decide, claim_C3 [MathBox.ofText ""] (by decide)⟩

/-- C5: the subscript node `msub(mi "x", mi "i")` renders, with compact
glyphs enabled, as the single-line box `"x"` followed by the Unicode
subscript transliteration of `"i"`; with compact glyphs disabled, as a
2-row box with baseline 0, `'x'` on the baseline row at column 0 and
`'i'` one row below the baseline at horizontal offset equal to the
base's width. -/
theorem claim_C5 :
    (process_element true (Elem.mk "msub" [] none none
        [Elem.mk "mi" [] (some "x") none [],
         Elem.mk "mi" [] (some "i") none []])
      = MathBox.ofText ("x" ++ (try_unicode_subscript true "i").getD "")) ∧
    (process_element true (Elem.mk "msub" [] none none
        [Elem.mk "mi" [] (some "x") none [],
         Elem.mk "mi" [] (some "i") none []])).height = 1 ∧
    (process_element false (Elem.mk "msub" [] none none
        [Elem.mk "mi" [] (some "x") none [],
         Elem.mk "mi" [] (some "i") none []])).height = 2 ∧
    (process_element false (Elem.mk "msub" [] none none
        [Elem.mk "mi" [] (some "x") none [],
         Elem.mk "mi" [] (some "i") none []])).baseline = 0 ∧
    (process_element false (Elem.mk "msub" [] none none
        [Elem.mk "mi" [] (some "x") none [],
         Elem.mk "mi" [] (some "i") none []])).get_char 0 0 = 'x' ∧
    (process_element false (Elem.mk "msub" [] none none
        [Elem.mk "mi" [] (some "x") none [],
         Elem.mk "mi" [] (some "i") none []])).get_char
      (↑(MathBox.ofText "x").width) 1 = 'i' := by decide

/-- C9: `get_char` returns the stored character inside the bounds and a
space outside them, and an out-of-bounds `set_char` is a no-op on the
whole box. -/
theorem claim_C9 (b : MathBox) (x y : Int) (c : Char) :
    (b.get_char x y =
      if 0 ≤ x ∧ x < (b.width : Int) ∧ 0 ≤ y ∧ y < (b.height : Int) then
        (b.content.getD y.toNat []).getD x.toNat ' '
      else ' ') ∧
    (¬ (0 ≤ x ∧ x < (b.width : Int) ∧ 0 ≤ y ∧ y < (b.height : Int)) →
      b.set_char x y c = b) := by
  constructor
  · rw [MathBox.get_char]
    by_cases h : 0 ≤ x ∧ x < (b.width : Int) ∧ 0 ≤ y ∧ y < (b.height : Int)
    · rw [if_pos h, if_pos ⟨h.2.2.1, h.2.2.2, h.1, h.2.1⟩]
    · rw [if_neg h, if_neg (fun hh => h ⟨hh.2.2.1, hh.2.2.2, hh.1, hh.2.1⟩)]
  · intro h
    rw [MathBox.set_char,
      if_neg (fun hh => h ⟨hh.2.2.1, hh.2.2.2, hh.1, hh.2.1⟩)]

theorem claim_C9_witness :
    (MathBox.ofText "a").set_char (-1) 0 'z' = MathBox.ofText "a" :=
  (claim_C9 (MathBox.ofText "a") (-1) 0 'z').2 (by decide)

/-- C7: an `munder` node's box is as wide as the wider of the two
operand boxes, raised to a minimum of 2 exactly when the base element's
text contains the summation glyph, and keeps the base box's baseline; an
`munderover` node obeys the same width rule over its three operand boxes
and places its baseline at `over.height + base.baseline`. -/
theorem claim_C7 :
    (∀ (u : Bool) (attrs : List (String × String)) (text tail : Option String)
        (b un : Elem),
      (process_element u (.mk "munder" attrs text tail [b, un])).width =
        (if elem_text_has_sum b then
          max (max (process_element u b).width (process_element u un).width) 2
        else max (process_element u b).width (process_element u un).width) ∧
      (process_element u (.mk "munder" attrs text tail [b, un])).baseline =
        (process_element u b).baseline) ∧
    (∀ (u : Bool) (attrs : List (String × String)) (text tail : Option String)
        (b un ov : Elem),
      (process_element u (.mk "munderover" attrs text tail [b, un, ov])).width =
        (if elem_text_has_sum b then
          max (max (process_element u b).width
            (max (process_element u un).width (process_element u ov).width)) 2
        else max (process_element u b).width
          (max (process_element u un).width (process_element u ov).width)) ∧
      (process_element u
          (.mk "munderover" attrs text tail [b, un, ov])).baseline =
        (process_element u ov).height + (process_element u b).baseline) := by
  constructor
  · intro u attrs text tail b un
    rw [process_element_munder, process_munder]
    exact ⟨under_layout_width _ _ _, under_layout_baseline _ _ _⟩
  · intro u attrs text tail b un ov
    rw [process_element_munderover, process_munderover]
    exact ⟨underover_layout_width _ _ _ _, underover_layout_baseline _ _ _ _⟩

/-- C8: the two-child rules (fraction, subscript, superscript, nth root)
with child-list length other than 2, and the three-child rules
(sub+superscript, under-over) with length other than 3, return the 1×1
placeholder box `"?"` with baseline 0; an enclosing row containing such
a malformed node and a sibling still renders to a well-formed box, so
the render continues instead of aborting. -/
theorem claim_C8 :
    (∀ (u : Bool) (tag : String), tag ∈ ["mfrac", "msub", "msup", "mroot"] →
      ∀ (attrs : List (String × String)) (text tail : Option String)
        (children : List Elem), children.length ≠ 2 →
      process_element u (.mk tag attrs text tail children)
        = MathBox.ofText "?") ∧
    (∀ (u : Bool) (tag : String), tag ∈ ["msubsup", "munderover"] →
      ∀ (attrs : List (String × String)) (text tail : Option String)
        (children : List Elem), children.length ≠ 3 →
      process_element u (.mk tag attrs text tail children)
        = MathBox.ofText "?") ∧
    (MathBox.ofText "?").width = 1 ∧ (MathBox.ofText "?").height = 1 ∧
    (MathBox.ofText "?").baseline = 0 ∧
    (∀ (u : Bool) (attrs : List (String × String)) (text tail : Option String)
        (children : List Elem) (sib : Elem), children.length ≠ 2 →
      (process_element u (Elem.mk "mrow" [] none none
        [Elem.mk "mfrac" attrs text tail children, sib])).Inv) := by
  refine ⟨?_, ?_, rfl, rfl, rfl, ?_⟩
  · intro u tag htag attrs text tail children hlen
    simp only [List.mem_cons, List.not_mem_nil, or_false] at htag
    rcases htag with rfl | rfl | rfl | rfl <;>
      (first
        | rw [process_element_mfrac]
        | rw [process_element_msub]
        | rw [process_element_msup]
        | rw [process_element_mroot]) <;>
      rcases children with _ | ⟨c1, _ | ⟨c2, _ | ⟨c3, cs⟩⟩⟩ <;>
      first
        | exact absurd rfl hlen
        | rw [process_mfrac]
        | rw [process_msub]
        | rw [process_msup]
        | rw [process_mroot]
  · intro u tag htag attrs text tail children hlen
    simp only [List.mem_cons, List.not_mem_nil, or_false] at htag
    rcases htag with rfl | rfl <;>
      (first
        | rw [process_element_msubsup]
        | rw [process_element_munderover]) <;>
      rcases children with _ | ⟨c1, _ | ⟨c2, _ | ⟨c3, _ | ⟨c4, cs⟩⟩⟩⟩ <;>
      first
        | exact absurd rfl hlen
        | rw [process_msubsup]
        | rw [process_munderover]
  · intro u attrs text tail children sib hlen
    exact process_element_inv u _

theorem claim_C8_witness :
    (process_element true (Elem.mk "mfrac" [] none none [])
      = MathBox.ofText "?") ∧
    (process_element true (Elem.mk "msubsup" [] none none [])
      = MathBox.ofText "?") ∧
    (process_element true (Elem.mk "mrow" [] none none
      [Elem.mk "mfrac" [] none none [],
       Elem.mk "mi" [] (some "y") none []])).Inv :=
  ⟨claim_C8.1 true "mfrac" (by decide) [] none none [] (by decide),
   claim_C8.2.1 true "msubsup" (by decide) [] none none [] (by decide),
   claim_C8.2.2.2.2.2 true [] none none []
     (Elem.mk "mi" [] (some "y") none []) (by decide)⟩

/-- C1: on a list of well-formed boxes at least two of which have
positive width, `horizontal_concat` keeps exactly the positive-width
boxes, and returns a box whose width is the sum of their widths, whose
baseline is the maximum of their baselines (attained), whose height is
that baseline plus the maximum of height minus baseline over them
(attained), and in which every non-blank cell of the i-th kept box
appears at the horizontal position following the widths of the kept
boxes before it, on the row aligning its baseline with the result's. -/
theorem claim_C1 (boxes : List MathBox) (hInv : ∀ b ∈ boxes, b.Inv)
    (h2 : 2 ≤ (boxes.filter fun b => 0 < b.width).length) :
    kept_boxes boxes = boxes.filter (fun b => 0 < b.width) ∧
    (horizontal_concat boxes).width
      = ((kept_boxes boxes).map (·.width)).sum ∧
    (∀ b ∈ kept_boxes boxes,
      b.baseline ≤ (horizontal_concat boxes).baseline) ∧
    (∃ b ∈ kept_boxes boxes,
      b.baseline = (horizontal_concat boxes).baseline) ∧
    (horizontal_concat boxes).height = (horizontal_concat boxes).baseline +
      ((kept_boxes boxes).map fun b => b.height - b.baseline).foldl max 0 ∧
    (∀ b ∈ kept_boxes boxes, b.height - b.baseline ≤
      ((kept_boxes boxes).map fun b => b.height - b.baseline).foldl max 0) ∧
    (∃ b ∈ kept_boxes boxes, b.height - b.baseline =
      ((kept_boxes boxes).map fun b => b.height - b.baseline).foldl max 0) ∧
    ∀ (i : Nat) (hi : i < (kept_boxes boxes).length) (x y : Nat),
      x < ((kept_boxes boxes).get ⟨i, hi⟩).width →
      y < ((kept_boxes boxes).get ⟨i, hi⟩).height →
      ((kept_boxes boxes).get ⟨i, hi⟩).get_char (↑x) (↑y) ≠ ' ' →
      (horizontal_concat boxes).get_char
          (↑((((kept_boxes boxes).take i).map (·.width)).sum + x))
          (↑((horizontal_concat boxes).baseline -
            ((kept_boxes boxes).get ⟨i, hi⟩).baseline + y))
        = ((kept_boxes boxes).get ⟨i, hi⟩).get_char (↑x) (↑y) := by
  have hfilt : kept_boxes boxes = boxes.filter (fun b => 0 < b.width) := by
    unfold kept_boxes
    refine List.filter_congr ?_
    intro b hb
    have h0 := (hInv b hb).1
    by_cases hw : 0 < b.width <;> simp [hw, h0]
  have hklen : 2 ≤ (kept_boxes boxes).length := by rw [hfilt]; exact h2
  obtain ⟨b1, b2, rest, hk⟩ :
      ∃ b1 b2 rest, kept_boxes boxes = b1 :: b2 :: rest := by
    rcases hkk : kept_boxes boxes with _ | ⟨c1, _ | ⟨c2, cs⟩⟩
    · rw [hkk] at hklen; simp at hklen
    · rw [hkk] at hklen; simp at hklen
    · exact ⟨c1, c2, cs, rfl⟩
  have hcon := horizontal_concat_of_kept_two boxes b1 b2 rest hk
  have hkInv : ∀ b ∈ b1 :: b2 :: rest, b.Inv := by
    intro b hb
    refine hInv b ?_
    have hmem : b ∈ kept_boxes boxes := by rw [hk]; exact hb
    rw [kept_boxes] at hmem
    exact List.mem_of_mem_filter hmem
  rw [hk, hcon, concat_build_width, concat_build_baseline, concat_build_height]
  rw [hk] at hfilt
  have hBle : ∀ b ∈ b1 :: b2 :: rest,
      b.baseline ≤ ((b1 :: b2 :: rest).map (·.baseline)).foldl max 0 :=
    fun b hb => nat_foldl_max_le _ 0 _ (List.mem_map_of_mem _ hb)
  have hBelle : ∀ b ∈ b1 :: b2 :: rest, b.height - b.baseline ≤
      ((b1 :: b2 :: rest).map fun b => b.height - b.baseline).foldl max 0 :=
    fun b hb => nat_foldl_max_le _ 0 _ (List.mem_map_of_mem _ hb)
  refine ⟨hfilt, rfl, hBle, ?_, rfl, hBelle, ?_, ?_⟩
  · rcases nat_foldl_max_attained ((b1 :: b2 :: rest).map (·.baseline)) 0 with
      h0 | ⟨a, ha, heq⟩
    · refine ⟨b1, List.mem_cons_self .., ?_⟩
      have hle := hBle b1 (List.mem_cons_self ..)
      omega
    · obtain ⟨b, hb, hba⟩ := List.mem_map.mp ha
      exact ⟨b, hb, by rw [hba, ← heq]⟩
  · rcases nat_foldl_max_attained
        ((b1 :: b2 :: rest).map fun b => b.height - b.baseline) 0 with
      h0 | ⟨a, ha, heq⟩
    · refine ⟨b1, List.mem_cons_self .., ?_⟩
      have hle := hBelle b1 (List.mem_cons_self ..)
      omega
    · obtain ⟨b, hb, hba⟩ := List.mem_map.mp ha
      exact ⟨b, hb, by rw [hba, ← heq]⟩
  · intro i hi x y hx hy hne
    have hHle : ∀ b ∈ b1 :: b2 :: rest,
        ((b1 :: b2 :: rest).map (·.baseline)).foldl max 0 - b.baseline +
          b.height ≤ ((b1 :: b2 :: rest).map (·.baseline)).foldl max 0 +
          ((b1 :: b2 :: rest).map fun b => b.height - b.baseline).foldl
            max 0 := by
      intro b hb
      have h1 := hBle b hb
      have h2 := hBelle b hb
      have h3 := (hkInv b hb).2.1
      omega
    have hmain := concat_place_get_mem (b1 :: b2 :: rest)
      (((b1 :: b2 :: rest).map (·.baseline)).foldl max 0)
      (((b1 :: b2 :: rest).map (·.baseline)).foldl max 0 +
        ((b1 :: b2 :: rest).map fun b => b.height - b.baseline).foldl max 0)
      (((b1 :: b2 :: rest).map (·.width)).sum)
      0 (MathBox.create_empty (((b1 :: b2 :: rest).map (·.width)).sum)
        (((b1 :: b2 :: rest).map (·.baseline)).foldl max 0 +
          ((b1 :: b2 :: rest).map fun b => b.height - b.baseline).foldl max 0)
        (((b1 :: b2 :: rest).map (·.baseline)).foldl max 0))
      (MathBox.create_empty_shape _ _ _) (MathBox.create_empty_width _ _ _)
      (MathBox.create_empty_height _ _ _) hkInv hBle hHle (by omega)
      i hi x y hx hy hne
    simp only [Nat.zero_add] at hmain
    unfold concat_build
    try dsimp only
    simp only [List.get_eq_getElem]
    exact hmain

theorem claim_C1_witness :
    (∀ b ∈ [MathBox.ofText "ab", MathBox.ofText "c"], b.Inv) ∧
    2 ≤ (([MathBox.ofText "ab", MathBox.ofText "c"]).filter
      fun b => 0 < b.width).length ∧
    (horizontal_concat [MathBox.ofText "ab", MathBox.ofText "c"]).width
      = ((kept_boxes [MathBox.ofText "ab", MathBox.ofText "c"]).map
        (·.width)).sum :=
  ⟨by decide, by decide,
    (claim_C1 [MathBox.ofText "ab", MathBox.ofText "c"] (by decide)
      (by decide)).2.1⟩

/-- C4 is refuted in its centering direction: for numerator `"a"` over
denominator `"bb"` the width difference is odd and the numerator lands
at column 0 with the spare column at column 1 — the right side, not the
left side, receives the extra column. -/
theorem claim_C4_counterexample :
    (fraction_layout false (MathBox.ofText "a")
      (MathBox.ofText "bb")).get_char 0 0 = 'a' ∧
    (fraction_layout false (MathBox.ofText "a")
      (MathBox.ofText "bb")).get_char 1 0 = ' ' ∧
    (fraction_layout false (MathBox.ofText "a")
      (MathBox.ofText "bb")).get_char 1 0 ≠ 'a' := by decide

/-- C4 (amended): a visible fraction is `max` wide, `num.height + 1 +
den.height` tall, its baseline row `num.height` is the full-width rule
row, and numerator and denominator are placed above and below at
horizontal offset `(width − child.width) / 2` by integer (floor)
division, the right side getting the extra column on odd differences. -/
theorem claim_C4 (n d : MathBox) :
    (fraction_layout false n d).width = max n.width d.width ∧
    (fraction_layout false n d).height = n.height + 1 + d.height ∧
    (fraction_layout false n d).baseline = n.height ∧
    (∀ x < max n.width d.width,
      (fraction_layout false n d).get_char (↑x) (↑n.height) = '─') ∧
    (∀ x < n.width, ∀ y < n.height,
      (fraction_layout false n d).get_char
          (↑(x + (max n.width d.width - n.width) / 2)) (↑y)
        = n.get_char (↑x) (↑y)) ∧
    (∀ x < d.width, ∀ y < d.height,
      (fraction_layout false n d).get_char
          (↑(x + (max n.width d.width - d.width) / 2)) (↑(n.height + 1 + y))
        = d.get_char (↑x) (↑y)) :=
  ⟨fraction_layout_width n d, fraction_layout_height n d,
    fraction_layout_baseline n d,
    fun x hx => fraction_layout_bar n d x hx,
    fun x hx y hy => fraction_layout_num n d x y hx hy,
    fun x hx y hy => fraction_layout_den n d x y hx hy⟩

theorem claim_C4_witness :
    0 < max (MathBox.ofText "a").width (MathBox.ofText "bb").width ∧
    (fraction_layout false (MathBox.ofText "a")
      (MathBox.ofText "bb")).get_char
        (↑(0 : Nat)) (↑(MathBox.ofText "a").height) = '─' :=
  ⟨by decide,
    (claim_C4 (MathBox.ofText "a") (MathBox.ofText "bb")).2.2.2.1 0
      (by decide)⟩

/-- C6 is refuted in its "if and only if the second row" direction: a
two-row table whose first row's cell text contains "where" while the
second row's does not still receives the inserted gap row — the scan in
the implementation looks at every row, not only the second.  The table
of rows `["where"]` and `["ok"]` has two rows of height 1 each, yet the
rendered height is 3. -/
theorem claim_C6_counterexample :
    (process_element true (Elem.mk "mtable" [] none none
      [Elem.mk "mtr" [] none none
        [Elem.mk "mtd" [] none none
          [Elem.mk "mtext" [] (some "where") none []]],
       Elem.mk "mtr" [] none none
        [Elem.mk "mtd" [] none none
          [Elem.mk "mtext" [] (some "ok") none []]]])).height = 3 ∧
    ((table_rows true
      [Elem.mk "mtr" [] none none
        [Elem.mk "mtd" [] none none
          [Elem.mk "mtext" [] (some "where") none []]],
       Elem.mk "mtr" [] none none
        [Elem.mk "mtd" [] none none
          [Elem.mk "mtext" [] (some "ok") none []]]]).map (·.height))
      = [1, 1] ∧
    has_where_scan
      [Elem.mk "mtr" [] none none
        [Elem.mk "mtd" [] none none
          [Elem.mk "mtext" [] (some "ok") none []]]] = false := by decide

/-- C6 (amended): for a table with at least two rows, the total height
is the sum of the row heights plus exactly one when any row's cell text
contains the word "where" (case-insensitively), and plus zero otherwise;
when the gap is inserted it sits directly below the first row, as a
fully blank row. -/
theorem claim_C6 (u : Bool) (attrs : List (String × String))
    (text tail : Option String) (children : List Elem)
    (h2 : 2 ≤ (table_rows u children).length) :
    (process_element u (Elem.mk "mtable" attrs text tail children)).height
      = ((table_rows u children).map (·.height)).sum +
        (if has_where_scan children then 1 else 0) ∧
    (has_where_scan children = true →
      ∀ r0 rest, table_rows u children = r0 :: rest →
      ∀ X : Nat,
        (process_element u (Elem.mk "mtable" attrs text tail
          children)).get_char (↑X) (↑r0.height) = ' ') := by
  rw [process_element_mtable]
  have hne : (table_rows u children).isEmpty = false := by
    rcases hrows : table_rows u children with _ | ⟨a, l⟩
    · rw [hrows] at h2; simp at h2
    · rfl
  rw [table_finish, if_neg (by simp [hne])]
  have hcond : (decide (2 ≤ (table_rows u children).length) &&
      has_where_scan children) = has_where_scan children := by
    rw [decide_eq_true h2, Bool.true_and]
  rw [hcond]
  constructor
  · cases hw : has_where_scan children
    · rw [table_layout_height, if_neg (by simp), if_neg (by simp)]
    · rw [table_layout_height, if_pos ⟨rfl, h2⟩, if_pos rfl]
  · intro hw r0 rest hrows X
    rw [hw, hrows]
    exact table_layout_gap_blank r0 rest X

theorem claim_C6_witness :
    2 ≤ (table_rows true
      [Elem.mk "mtr" [] none none
        [Elem.mk "mtd" [] none none
          [Elem.mk "mtext" [] (some "where") none []]],
       Elem.mk "mtr" [] none none
        [Elem.mk "mtd" [] none none
          [Elem.mk "mtext" [] (some "ok") none []]]]).length ∧
    (process_element true (Elem.mk "mtable" [] none none
      [Elem.mk "mtr" [] none none
        [Elem.mk "mtd" [] none none
          [Elem.mk "mtext" [] (some "where") none []]],
       Elem.mk "mtr" [] none none
        [Elem.mk "mtd" [] none none
          [Elem.mk "mtext" [] (some "ok") none []]]])).height
      = ((table_rows true
        [Elem.mk "mtr" [] none none
          [Elem.mk "mtd" [] none none
            [Elem.mk "mtext" [] (some "where") none []]],
         Elem.mk "mtr" [] none none
          [Elem.mk "mtd" [] none none
            [Elem.mk "mtext" [] (some "ok") none []]]]).map (·.height)).sum +
        (if has_where_scan
          [Elem.mk "mtr" [] none none
            [Elem.mk "mtd" [] none none
              [Elem.mk "mtext" [] (some "where") none []]],
           Elem.mk "mtr" [] none none
            [Elem.mk "mtd" [] none none
              [Elem.mk "mtext" [] (some "ok") none []]]] then 1 else 0) :=
  ⟨by decide, (claim_C6 true [] none none
    [Elem.mk "mtr" [] none none
      [Elem.mk "mtd" [] none none
        [Elem.mk "mtext" [] (some "where") none []]],
     Elem.mk "mtr" [] none none
      [Elem.mk "mtd" [] none none
        [Elem.mk "mtext" [] (some "ok") none []]]] (by decide)).1⟩

/-- C10: when no substring of the input matches the
`<math[^>]*>.*?</math>` pattern, the entry point returns the input
string unchanged, for either value of the compact-glyph flag; when some
substring does match, the leftmost match is the one parsed and rendered,
and nothing else of the input contributes to the output. -/
theorem claim_C10 (fromstring : String → Option Elem) (u : Bool)
    (html : String) :
    ((∀ pre mid post : List Char, html.toList = pre ++ mid ++ post →
        ¬ IsMathMatch mid) →
      mathml_to_ascii fromstring html u = some html) ∧
    ((∃ pre mid post : List Char, html.toList = pre ++ mid ++ post ∧
        IsMathMatch mid) →
      ∃ m : List Char, first_math_match html.toList = some m ∧
        IsMathMatch m ∧
        mathml_to_ascii fromstring html u
          = (parse fromstring u (String.mk m)).map MathBox.render) := by
  constructor
  · intro hno
    rw [mathml_to_ascii]
    cases hfm : first_math_match html.toList with
    | none => rfl
    | some m =>
      obtain ⟨⟨pre, post, hsplit⟩, hmm⟩ := first_math_match_sound _ _ hfm
      exact absurd hmm (hno pre m post hsplit)
  · rintro ⟨pre, mid, post, hsplit, hmm⟩
    have hne := first_math_match_complete pre mid post hmm
    rw [← hsplit] at hne
    cases hfm : first_math_match html.toList with
    | none => exact absurd hfm hne
    | some m =>
      refine ⟨m, rfl, (first_math_match_sound _ _ hfm).2, ?_⟩
      rw [mathml_to_ascii, hfm]

theorem claim_C10_witness :
    (∃ pre mid post : List Char,
      "<math>x</math>".toList = pre ++ mid ++ post ∧ IsMathMatch mid) ∧
    (∃ m : List Char,
      first_math_match "<math>x</math>".toList = some m ∧ IsMathMatch m ∧
      mathml_to_ascii (fun _ => none) "<math>x</math>" true
        = (parse (fun _ => none) true (String.mk m)).map MathBox.render) :=
  ⟨⟨[], "<math>x</math>".toList, [], by decide,
    [], ['x'], by decide, by decide⟩,
   (claim_C10 (fun _ => none) true "<math>x</math>").2
     ⟨[], "<math>x</math>".toList, [], by decide,
      [], ['x'], by decide, by decide⟩⟩
